import Mathlib

/-!
# Verification of the GitHub PR Agent core

Shallow embedding of the agentic task executor of the `github-pr-agent`
repository (`src/server.ts` and `src/react-agent.ts`), together with proofs
of the specified properties: the retry/backoff wrapper, the tool registry
(`create_branch`, `commit_files`, `create_pull_request`), the change-set
generator/validator loop, the deterministic plan executor's step state
machine, the content encoding round-trip, and the autonomous ReAct control
loop with its loop detection.

External collaborators (the Workers AI model runner, the GitHub REST API,
`JSON.parse`) are modelled as oracle parameters; everything else is
translated directly from the TypeScript source.
-/

namespace PRAgent

/-- JS `String.prototype.includes` as a proposition: `pat` occurs as a
contiguous substring of `s`. -/
def ContainsStr (s pat : String) : Prop := pat.data <:+: s.data

instance (s pat : String) : Decidable (ContainsStr s pat) :=
  List.decidableInfix pat.data s.data

/-- JS `String.prototype.includes` as a boolean (used by the source's
substring-matching error classification). -/
def containsStr (s pat : String) : Bool := decide (ContainsStr s pat)

theorem containsStr_eq_true_iff (s pat : String) :
    containsStr s pat = true ↔ ContainsStr s pat := by
  simp [containsStr]

/-- A string built as `a ++ pat ++ b` contains `pat`. -/
theorem containsStr_of_append (a pat b : String) :
    ContainsStr (a ++ pat ++ b) pat := by
  unfold ContainsStr
  rw [String.data_append, String.data_append]
  exact List.infix_append a.data pat.data b.data

/-!
## Retry/Backoff wrapper (`callModelWithRetry`, src/react-agent.ts:490-524)

The Workers AI runner is modelled as an attempt-indexed oracle
`runner : Nat → Except String α` (`.error msg` models a thrown error whose
`message` is `msg`). The function returns the result together with the
list of backoff delays slept (in ms) and the number of runner invocations.
-/

/-- Transient-error classification from `callModelWithRetry`
(src/react-agent.ts:505-512): substring match on the error message. -/
def isTransientError (msg : String) : Bool :=
  containsStr msg "502" ||
  containsStr msg "Bad Gateway" ||
  containsStr msg "upstream" ||
  containsStr msg "temporarily" ||
  containsStr msg "1031" ||
  containsStr msg "overloaded" ||
  containsStr msg "rate limit"

/-- One-pass embedding of the retry `for` loop of `callModelWithRetry`,
starting at `attempt` (with `attempt ≤ maxRetries`, as in the source where
`attempt` ranges over `0..maxRetries`).  Returns the final result, the
backoff delays slept, and the number of runner invocations. -/
def retryGo (runner : Nat → Except String α) (maxRetries : Nat) :
    (attempt : Nat) → (h : attempt ≤ maxRetries) → Except String α × List Nat × Nat
  | attempt, h =>
    match runner attempt with
    | .ok r => (.ok r, [], 1)
    | .error e =>
      if hc : isTransientError e = false ∨ attempt = maxRetries then
        (.error e, [], 1)
      else
        have hlt : attempt < maxRetries :=
          Nat.lt_of_le_of_ne h (fun hh => hc (Or.inr hh))
        let rest := retryGo runner maxRetries (attempt + 1) hlt
        (rest.1, 1000 * (attempt + 1) :: rest.2.1, rest.2.2 + 1)
  termination_by attempt _ => maxRetries - attempt
  decreasing_by omega

/-- `callModelWithRetry(ai, modelId, options, maxRetries)`
(src/react-agent.ts:490-524), with the AI runner as an oracle. -/
def callModelWithRetry (runner : Nat → Except String α) (maxRetries : Nat) :
    Except String α × List Nat × Nat :=
  retryGo runner maxRetries 0 (Nat.zero_le _)

/-- `retryGo` on a successful runner call returns that response after a
single invocation, with no sleeps. -/
theorem retryGo_ok (runner : Nat → Except String α) (maxRetries attempt : Nat)
    (h : attempt ≤ maxRetries) (r : α) (hr : runner attempt = .ok r) :
    retryGo runner maxRetries attempt h = (.ok r, [], 1) := by
  rw [retryGo, hr]

/-- `retryGo` re-raises immediately (single invocation, no sleep) on a
non-transient error, or when the retry budget is exhausted. -/
theorem retryGo_halt (runner : Nat → Except String α) (maxRetries attempt : Nat)
    (h : attempt ≤ maxRetries) (e : String) (hr : runner attempt = .error e)
    (hc : isTransientError e = false ∨ attempt = maxRetries) :
    retryGo runner maxRetries attempt h = (.error e, [], 1) := by
  rw [retryGo, hr]
  simp only [dif_pos hc]

/-- `retryGo` on a transient error with budget remaining records a
`1000 * (attempt + 1)` ms sleep and retries at the next attempt. -/
theorem retryGo_retry (runner : Nat → Except String α) (maxRetries attempt : Nat)
    (h : attempt ≤ maxRetries) (e : String) (hr : runner attempt = .error e)
    (ht : isTransientError e = true) (hlt : attempt < maxRetries) :
    retryGo runner maxRetries attempt h =
      ((retryGo runner maxRetries (attempt + 1) hlt).1,
       1000 * (attempt + 1) :: (retryGo runner maxRetries (attempt + 1) hlt).2.1,
       (retryGo runner maxRetries (attempt + 1) hlt).2.2 + 1) := by
  rw [retryGo, hr]
  have hc : ¬(isTransientError e = false ∨ attempt = maxRetries) := by
    rw [not_or]
    exact ⟨by simp [ht], by omega⟩
  simp only [dif_neg hc]

/-- The runner is invoked at most `maxRetries + 1 - attempt` times from
any starting attempt. -/
theorem retryGo_invocations_le (runner : Nat → Except String α)
    (maxRetries : Nat) :
    ∀ attempt (h : attempt ≤ maxRetries),
      (retryGo runner maxRetries attempt h).2.2 ≤ maxRetries + 1 - attempt := by
  intro attempt h
  induction' hn : maxRetries - attempt with n ih generalizing attempt
  · cases hr : runner attempt with
    | ok r => rw [retryGo_ok runner maxRetries attempt h r hr]; simp; omega
    | error e =>
      have hc : isTransientError e = false ∨ attempt = maxRetries :=
        Or.inr (by omega)
      rw [retryGo_halt runner maxRetries attempt h e hr hc]; simp; omega
  · cases hr : runner attempt with
    | ok r => rw [retryGo_ok runner maxRetries attempt h r hr]; simp; omega
    | error e =>
      by_cases hc : isTransientError e = false ∨ attempt = maxRetries
      · rw [retryGo_halt runner maxRetries attempt h e hr hc]; simp; omega
      · rcases not_or.mp hc with ⟨ht', hne⟩
        have ht : isTransientError e = true := by
          cases hb : isTransientError e
          · exact absurd hb ht'
          · rfl
        have hlt : attempt < maxRetries := by omega
        rw [retryGo_retry runner maxRetries attempt h e hr ht hlt]
        have := ih (attempt + 1) hlt (by omega)
        simp only
        omega

/-- When every attempt fails with a transient error, the loop exhausts the
budget: the last error is re-raised, one backoff sleep is recorded per
retried attempt, and the runner is invoked `maxRetries + 1 - attempt`
times. -/
theorem retryGo_exhaust (runner : Nat → Except String α) (maxRetries : Nat)
    (es : Nat → String)
    (hall : ∀ i, i ≤ maxRetries →
      runner i = .error (es i) ∧ isTransientError (es i) = true) :
    ∀ attempt (h : attempt ≤ maxRetries),
      retryGo runner maxRetries attempt h =
        (.error (es maxRetries),
         (List.range' (attempt + 1) (maxRetries - attempt)).map (fun j => 1000 * j),
         maxRetries + 1 - attempt) := by
  intro attempt h
  induction' hn : maxRetries - attempt with n ih generalizing attempt
  · have heq : attempt = maxRetries := by omega
    obtain ⟨hr, _⟩ := hall attempt h
    rw [retryGo_halt runner maxRetries attempt h (es attempt) hr (Or.inr heq)]
    subst heq
    simp [Prod.mk.injEq]
  · obtain ⟨hr, ht⟩ := hall attempt h
    have hlt : attempt < maxRetries := by omega
    rw [retryGo_retry runner maxRetries attempt h (es attempt) hr ht hlt]
    rw [ih (attempt + 1) hlt (by omega)]
    simp only [List.range'_succ, List.map_cons, Prod.mk.injEq]
    refine ⟨by trivial, by trivial, by omega⟩

/-- **C5.** `callModelWithRetry` re-raises a non-transient error immediately
without retrying; on an error matching the transient signatures with budget
remaining it sleeps `1000 * (attempt + 1)` ms and retries; when every
attempt up to `maxRetries` fails transiently the last error is re-raised
after `maxRetries + 1` invocations; and the underlying runner is invoked at
most `maxRetries + 1` times per call. -/
theorem callModelWithRetry_spec (runner : Nat → Except String α)
    (maxRetries : Nat) :
    (callModelWithRetry runner maxRetries).2.2 ≤ maxRetries + 1
    ∧ (∀ attempt (h : attempt ≤ maxRetries) e,
        runner attempt = .error e → isTransientError e = false →
        retryGo runner maxRetries attempt h = (.error e, [], 1))
    ∧ (∀ attempt (h : attempt ≤ maxRetries) e (hlt : attempt < maxRetries),
        runner attempt = .error e → isTransientError e = true →
        retryGo runner maxRetries attempt h =
          ((retryGo runner maxRetries (attempt + 1) hlt).1,
           1000 * (attempt + 1) :: (retryGo runner maxRetries (attempt + 1) hlt).2.1,
           (retryGo runner maxRetries (attempt + 1) hlt).2.2 + 1))
    ∧ (∀ es : Nat → String,
        (∀ i, i ≤ maxRetries →
          runner i = .error (es i) ∧ isTransientError (es i) = true) →
        callModelWithRetry runner maxRetries =
          (.error (es maxRetries),
           (List.range' 1 maxRetries).map (fun j => 1000 * j),
           maxRetries + 1)) := by
  refine ⟨?_, ?_, ?_, ?_⟩
  · have := retryGo_invocations_le runner maxRetries 0 (Nat.zero_le _)
    simpa [callModelWithRetry] using this
  · intro attempt h e hr hf
    exact retryGo_halt runner maxRetries attempt h e hr (Or.inl hf)
  · intro attempt h e hlt hr ht
    exact retryGo_retry runner maxRetries attempt h e hr ht hlt
  · intro es hall
    have := retryGo_exhaust runner maxRetries es hall 0 (Nat.zero_le _)
    simpa [callModelWithRetry] using this

/-- Witness for `callModelWithRetry_spec`: a non-transient error is
re-raised after one invocation; a persistently transient runner (message
containing "502") exhausts the default budget of 3 retries with backoffs
1000/2000/3000 ms and 4 invocations. -/
theorem callModelWithRetry_spec_witness :
    retryGo (fun _ => (.error "invalid model id" : Except String Unit)) 3 0 (Nat.zero_le _) =
      (.error "invalid model id", [], 1)
    ∧ callModelWithRetry (fun _ => (.error "502 Bad Gateway" : Except String Unit)) 3 =
      (.error "502 Bad Gateway", [1000, 2000, 3000], 4) := by
  constructor
  · exact (callModelWithRetry_spec (fun _ => (.error "invalid model id" : Except String Unit)) 3).2.1
      0 (Nat.zero_le _) "invalid model id" rfl (by decide)
  · have h := (callModelWithRetry_spec
      (fun _ => (.error "502 Bad Gateway" : Except String Unit)) 3).2.2.2
      (fun _ => "502 Bad Gateway")
      (fun i _ => ⟨rfl, by show isTransientError "502 Bad Gateway" = true; decide⟩)
    rw [h]
    rfl

/-!
## Tool Registry (src/react-agent.ts, `createReActTools`)

The Remote Repository Client's individual REST calls are modelled as
oracle parameters returning `Except String _` (`.error msg` models a
thrown error with message `msg`).
-/

/-- JS `String.prototype.trim`: strip leading and trailing whitespace. -/
def jsTrim (s : String) : String :=
  String.mk (((s.data.dropWhile Char.isWhitespace).reverse.dropWhile
    Char.isWhitespace).reverse)

/-- JS `x || default` for an optional string parameter: `undefined` and
the empty string are both falsy. -/
def jsOrDefault (v : Option String) (d : String) : String :=
  match v with
  | none => d
  | some s => if s = "" then d else s

/-- A JS value as it appears in an LLM-supplied tool-argument field: a
string, or anything else (number, object, null, undefined, ...). -/
inductive JSVal where
  | str (s : String)
  | other
deriving DecidableEq, Repr

/-- Display used when a `JSVal` is interpolated into a template string
(JS `String(x)`); the non-string payload is irrelevant to every claim. -/
def JSVal.display : JSVal → String
  | .str s => s
  | .other => "[object]"

/-! ### `create_branch` (src/react-agent.ts:209-241) -/

structure CreateBranchOutput where
  success : Bool
  branchName : String
  alreadyExists : Option Bool := none
deriving DecidableEq, Repr

/-- The `try` block of `create_branch.execute`: resolve the source
branch's tip and create the new ref at it. -/
def createBranchAttempt (getRef : String → Except String String)
    (createRef : String → String → Except String Unit)
    (branchName source : String) : Except String CreateBranchOutput :=
  match getRef source with
  | .error e => .error e
  | .ok sha =>
    match createRef branchName sha with
    | .error e => .error e
    | .ok _ => .ok { success := true, branchName := branchName }

/-- `create_branch.execute` (src/react-agent.ts:209-241): an underlying
error whose message contains "already exists" or "422" is converted into
an idempotent success result. -/
def createBranchExec (getRef : String → Except String String)
    (createRef : String → String → Except String Unit)
    (branchName : String) (fromBranch : Option String) :
    Except String CreateBranchOutput :=
  let source := jsOrDefault fromBranch "main"
  match createBranchAttempt getRef createRef branchName source with
  | .ok out => .ok out
  | .error e =>
    if containsStr e "already exists" || containsStr e "422" then
      .ok { success := true, branchName := branchName, alreadyExists := some true }
    else
      .error ("Failed to create branch: " ++ e)

/-- Modelled from the spec (§6, Remote Repository Client boundary): the
hosted API's ref store.  `getRef` returns the branch tip or a 404-style
error; `createRef` on an existing ref fails with an HTTP-422 message in
the format produced by `GitHubAPI.request` (src/server.ts:97-99). -/
abbrev RefStore := List (String × String)

def ghGetRef (store : RefStore) (branch : String) : Except String String :=
  match store.find? (fun p => p.1 = branch) with
  | some p => .ok p.2
  | none => .error ("GitHub API error: 404 - " ++ "\x7b\"message\":\"Not Found\"\x7d")

def ghCreateRef (store : RefStore) (branch sha : String) :
    Except String RefStore :=
  if (store.find? (fun p => p.1 = branch)).isSome then
    .error ("GitHub API error: 422 - " ++ "\x7b\"message\":\"Reference already exists\"\x7d")
  else
    .ok ((branch, sha) :: store)

/-- **C6.** `create_branch` is idempotent: any underlying error containing
"already exists" or "422" is converted into
`{success := true, branchName, alreadyExists := true}`; consequently, over
the modelled ref store, a second call with the same branch name succeeds
with `alreadyExists := true` instead of erroring. -/
theorem create_branch_idempotent
    (getRef : String → Except String String)
    (createRef : String → String → Except String Unit)
    (branchName : String) (fromBranch : Option String) :
    (∀ e, createBranchAttempt getRef createRef branchName
            (jsOrDefault fromBranch "main") = .error e →
      (containsStr e "already exists" || containsStr e "422") = true →
      createBranchExec getRef createRef branchName fromBranch =
        .ok { success := true, branchName := branchName, alreadyExists := some true })
    ∧ (∀ (s0 : RefStore) (sha : String),
        (jsOrDefault fromBranch "main") ≠ branchName →
        s0.find? (fun p => p.1 = jsOrDefault fromBranch "main") =
          some (jsOrDefault fromBranch "main", sha) →
        s0.find? (fun p => p.1 = branchName) = none →
        createBranchExec (ghGetRef s0)
            (fun b sh => (ghCreateRef s0 b sh).map (fun _ => ()))
            branchName fromBranch =
          .ok { success := true, branchName := branchName }
        ∧ createBranchExec (ghGetRef ((branchName, sha) :: s0))
            (fun b sh => (ghCreateRef ((branchName, sha) :: s0) b sh).map (fun _ => ()))
            branchName fromBranch =
          .ok { success := true, branchName := branchName,
                alreadyExists := some true }) := by
  constructor
  · intro e hatt hmsg
    simp [createBranchExec, hatt, hmsg]
  · intro s0 sha hne hsrc habs
    constructor
    · simp only [createBranchExec, createBranchAttempt, ghGetRef, hsrc]
      simp [ghCreateRef, habs, Except.map]
    · have hfind : ((branchName, sha) :: s0).find?
          (fun p => p.1 = jsOrDefault fromBranch "main") =
          some (jsOrDefault fromBranch "main", sha) := by
        rw [List.find?_cons_of_neg _ (by simp [Ne.symm hne]), hsrc]
      have hfind2 : (((branchName, sha) :: s0).find?
          (fun p => p.1 = branchName)).isSome = true := by
        rw [List.find?_cons_of_pos _ (by simp)]
        rfl
      simp only [createBranchExec, createBranchAttempt, ghGetRef, hfind]
      simp only [ghCreateRef, hfind2, if_true, Except.map]
      simp
      intro hfalse
      decide

/-- Witness for `create_branch_idempotent`: a concrete store with `main`
at `abc`; the second `create_branch feature/x` call reports
`alreadyExists := true`. -/
theorem create_branch_idempotent_witness :
    createBranchExec (ghGetRef [("main", "abc")])
        (fun b sh => (ghCreateRef [("main", "abc")] b sh).map (fun _ => ()))
        "feature/x" none =
      .ok { success := true, branchName := "feature/x" }
    ∧ createBranchExec (ghGetRef [("feature/x", "abc"), ("main", "abc")])
        (fun b sh => (ghCreateRef [("feature/x", "abc"), ("main", "abc")] b sh).map (fun _ => ()))
        "feature/x" none =
      .ok { success := true, branchName := "feature/x", alreadyExists := some true } := by
  exact (create_branch_idempotent (ghGetRef [("main", "abc")])
      (fun b sh => (ghCreateRef [("main", "abc")] b sh).map (fun _ => ()))
      "feature/x" none).2 [("main", "abc")] "abc"
    (by decide) (by decide) (by decide)

/-! ### `create_pull_request` (src/react-agent.ts:407-471) -/

/-- Result of the `compareCommits` call as seen by the tool:
`ahead_by = none` models a result whose `ahead_by` field is missing or not
a number (src/react-agent.ts:426). -/
structure CompareResult where
  ahead_by : Option Int
  behind_by : Option Int := none
deriving DecidableEq, Repr

/-- Raw result of the client's `createPullRequest` call. -/
structure PRRaw where
  html_url : String
  number : Nat
deriving DecidableEq, Repr

structure CreatePROutput where
  success : Bool
  prUrl : Option String := none
  branchName : Option String := none
  prNumber : Option Nat := none
  alreadyExists : Option Bool := none
deriving DecidableEq, Repr

/-- The preflight block of `create_pull_request.execute`
(src/react-agent.ts:417-437): any error raised inside the `try` (the
comparison call failing, a non-numeric `ahead_by`, or `ahead_by <= 0`) is
re-wrapped as "Preflight check failed: ...". -/
def prPreflight (compare : String → String → Except String CompareResult)
    (base branchName : String) : Except String Unit :=
  match compare base branchName with
  | .error e => .error ("Preflight check failed: " ++ e)
  | .ok cmp =>
    match cmp.ahead_by with
    | none => .error ("Preflight check failed: " ++ "Could not compare branches")
    | some a =>
      if a ≤ 0 then
        .error ("Preflight check failed: " ++
          ("No commits between " ++ base ++ " and " ++ branchName ++
            ". Use commit_files to create at least one commit before creating a PR."))
      else .ok ()

/-- `create_pull_request.execute` (src/react-agent.ts:407-471).  The
returned `Bool` records whether the client's `createPullRequest` call was
issued. -/
def createPullRequestExec (owner repo description : String)
    (compare : String → String → Except String CompareResult)
    (mkPR : String → String → String → String → Except String PRRaw)
    (branchName : String) (targetBranch title : Option String) :
    Except String CreatePROutput × Bool :=
  let base := jsOrDefault targetBranch "main"
  match prPreflight compare base branchName with
  | .error e => (.error e, false)
  | .ok _ =>
    let prTitle := jsOrDefault title (String.mk (description.data.take 100))
    let prBody := "## Summary\n\n" ++ description ++
      "\n\n---\n*Created by ReAct GitHub PR Agent on Cloudflare*"
    match mkPR prTitle prBody branchName base with
    | .ok pr =>
      (.ok { success := true, prUrl := some pr.html_url,
             branchName := some branchName, prNumber := some pr.number }, true)
    | .error e =>
      if containsStr e "already exists" ||
         containsStr e "A pull request already exists" then
        (.ok { success := true,
               prUrl := some ("https://github.com/" ++ owner ++ "/" ++ repo ++ "/pulls"),
               branchName := some branchName, alreadyExists := some true }, true)
      else
        (.error e, true)

/-- **C3.** `create_pull_request` preflight guard: when `compareCommits`
reports `ahead_by ≤ 0` the tool fails with a message containing
"No commits" and the PR-creation call is never issued; when the comparison
itself throws, or returns no numeric `ahead_by`, the whole tool call fails
and no PR-creation call is issued. -/
theorem create_pull_request_preflight_guard
    (owner repo description : String)
    (compare : String → String → Except String CompareResult)
    (mkPR : String → String → String → String → Except String PRRaw)
    (branchName : String) (targetBranch title : Option String) :
    (∀ cmp a, compare (jsOrDefault targetBranch "main") branchName = .ok cmp →
      cmp.ahead_by = some a → a ≤ 0 →
      ∃ msg, createPullRequestExec owner repo description compare mkPR
          branchName targetBranch title = (.error msg, false)
        ∧ ContainsStr msg "No commits")
    ∧ (∀ e, compare (jsOrDefault targetBranch "main") branchName = .error e →
      createPullRequestExec owner repo description compare mkPR
          branchName targetBranch title =
        (.error ("Preflight check failed: " ++ e), false))
    ∧ (∀ cmp, compare (jsOrDefault targetBranch "main") branchName = .ok cmp →
      cmp.ahead_by = none →
      createPullRequestExec owner repo description compare mkPR
          branchName targetBranch title =
        (.error ("Preflight check failed: " ++ "Could not compare branches"), false)) := by
  refine ⟨?_, ?_, ?_⟩
  · intro cmp a hcmp ha hle
    refine ⟨"Preflight check failed: " ++
      ("No commits between " ++ jsOrDefault targetBranch "main" ++ " and " ++ branchName ++
        ". Use commit_files to create at least one commit before creating a PR."), ?_, ?_⟩
    · simp only [createPullRequestExec, prPreflight, hcmp, ha, if_pos hle]
    · have : "Preflight check failed: " ++
          ("No commits between " ++ jsOrDefault targetBranch "main" ++ " and " ++ branchName ++
            ". Use commit_files to create at least one commit before creating a PR.") =
          ("Preflight check failed: " ++ "") ++ "No commits" ++
          (" between " ++ jsOrDefault targetBranch "main" ++ " and " ++ branchName ++
            ". Use commit_files to create at least one commit before creating a PR.") := by
        simp [String.ext_iff]
      rw [this]
      exact containsStr_of_append _ _ _
  · intro e hcmp
    simp only [createPullRequestExec, prPreflight, hcmp]
  · intro cmp hcmp ha
    simp only [createPullRequestExec, prPreflight, hcmp, ha]

/-- Witness for `create_pull_request_preflight_guard`: a comparison
reporting `ahead_by = 0` produces a "No commits" failure without issuing
the PR call. -/
theorem create_pull_request_preflight_guard_witness :
    ∃ msg,
      createPullRequestExec "octo" "repo" "add dark mode"
          (fun _ _ => .ok { ahead_by := some 0 })
          (fun _ _ _ _ => .ok { html_url := "https://github.com/octo/repo/pull/1", number := 1 })
          "feature/x" none none = (.error msg, false)
      ∧ ContainsStr msg "No commits" := by
  exact (create_pull_request_preflight_guard "octo" "repo" "add dark mode"
      (fun _ _ => .ok { ahead_by := some 0 })
      (fun _ _ _ _ => .ok { html_url := "https://github.com/octo/repo/pull/1", number := 1 })
      "feature/x" none none).1 { ahead_by := some 0 } 0 rfl rfl (by decide)

/-! ### `commit_files` (src/react-agent.ts:282-382)

The embedding starts from the point where the `changes` argument has been
through `parseIfStringified`: `none` models an unparseable / non-array
value, `some cs` the parsed array.  A list element that is `none` models a
null/undefined entry (the JS `!c` check).
-/

/-- One FileChange-like entry as received from the LLM. -/
structure RawChange where
  path : JSVal
  content : JSVal
  action : JSVal
deriving DecidableEq, Repr

abbrev RawEntry := Option RawChange

/-- The filter of src/react-agent.ts:301-311: an entry is kept iff it is
non-null, `path` is a string with non-blank trim, and `content` is a
string. -/
def isValidEntry : RawEntry → Bool
  | none => false
  | some c =>
    match c.path with
    | .str p =>
      if jsTrim p = "" then false
      else
        match c.content with
        | .str _ => true
        | .other => false
    | .other => false

def noChangesMsg : String :=
  "No changes provided or the 'changes' value could not be parsed. " ++
  "Ensure 'changes' is a JSON array (not a string) with entries like: " ++
  "[\x7b\"path\":\"file.css\",\"content\":\"body\x7bbackground:black\x7d\",\"action\":\"update\"\x7d]"

def allInvalidMsg : String :=
  "All change entries were invalid (missing path or content). " ++
  "Each entry must have: path (string), content (string), action ('create' | 'update')."

/-- The per-entry batch cap of src/react-agent.ts:321. -/
def MAX_CHANGES : Nat := 10

/-- Commit one valid change (the body of the `for` loop,
src/react-agent.ts:331-373): for `update` actions the current revision
marker is fetched first (a failed read means "will create instead"), and
the commit result is recorded per path. -/
def commitOne (getFileSha : String → String → Except String (Option String))
    (putFile : String → String → String → Option String → Except String Unit)
    (description branchName : String) (c : RawChange) : String × String :=
  match c.path, c.content with
  | .str p, .str ct =>
    let sha : Option String :=
      if c.action = .str "update" then
        match getFileSha p branchName with
        | .ok s => s
        | .error _ => none
      else none
    let message := c.action.display ++ ": " ++ p ++ " - " ++
      String.mk (description.data.take 50)
    match putFile p ct message sha with
    | .ok _ => (p, "ok")
    | .error e => (p, "error: " ++ e)
  | _, _ => ("", "error: invalid entry")  -- unreachable: entries are pre-filtered

structure CommitFilesOutput where
  results : List (String × String)
  successCount : Nat
  errorCount : Nat
deriving DecidableEq, Repr

/-- `commit_files.execute` (src/react-agent.ts:282-382). -/
def commitFilesExec (getFileSha : String → String → Except String (Option String))
    (putFile : String → String → String → Option String → Except String Unit)
    (description branchName : String) (changes : Option (List RawEntry)) :
    Except String CommitFilesOutput :=
  match changes with
  | none => .error noChangesMsg
  | some cs =>
    if cs.isEmpty then .error noChangesMsg
    else
      let validChanges := cs.filter isValidEntry
      if validChanges.isEmpty then .error allInvalidMsg
      else
        let batch := validChanges.take MAX_CHANGES
        let results := batch.map (fun e =>
          match e with
          | some c => commitOne getFileSha putFile description branchName c
          | none => ("", "error: invalid entry"))  -- unreachable after the filter
        let successCount := (results.filter (fun r => r.2 = "ok")).length
        let errorCount := (results.filter (fun r => r.2.startsWith "error")).length
        .ok { results := results, successCount := successCount,
              errorCount := errorCount }

/-- **C7.** Given one valid and one malformed entry (in either order), the
malformed entry is filtered out before committing: only the valid entry is
committed and the tool reports `successCount = 1`, `errorCount = 0`. -/
theorem commit_files_filters_malformed
    (getFileSha : String → String → Except String (Option String))
    (putFile : String → String → String → Option String → Except String Unit)
    (description branchName : String)
    (c : RawChange) (p ct : String)
    (hp : c.path = .str p) (hct : c.content = .str ct)
    (hpt : ¬ jsTrim p = "")
    (m : RawEntry) (hm : isValidEntry m = false)
    (hput : ∀ message sha, putFile p ct message sha = .ok ()) :
    commitFilesExec getFileSha putFile description branchName
        (some [some c, m]) =
      .ok { results := [(p, "ok")], successCount := 1, errorCount := 0 }
    ∧ commitFilesExec getFileSha putFile description branchName
        (some [m, some c]) =
      .ok { results := [(p, "ok")], successCount := 1, errorCount := 0 } := by
  have hvalid : isValidEntry (some c) = true := by
    simp only [isValidEntry, hp, hct]
    rw [if_neg hpt]
  have hcommit : commitOne getFileSha putFile description branchName c = (p, "ok") := by
    simp only [commitOne, hp, hct, hput]
  have hfilter1 : ([some c, m]).filter isValidEntry = [some c] := by
    simp [List.filter, hvalid, hm]
  have hfilter2 : ([m, some c]).filter isValidEntry = [some c] := by
    simp [List.filter, hvalid, hm]
  constructor
  · simp only [commitFilesExec, List.isEmpty, hfilter1]
    simp [hcommit, MAX_CHANGES]
    decide
  · simp only [commitFilesExec, List.isEmpty, hfilter2]
    simp [hcommit, MAX_CHANGES]
    decide

/-- Witness for `commit_files_filters_malformed`: a valid `index.html`
create plus an entry with a missing (non-string) `content`. -/
theorem commit_files_filters_malformed_witness :
    commitFilesExec (fun _ _ => .ok none) (fun _ _ _ _ => .ok ())
        "add dark mode" "feature/x"
        (some [some { path := .str "index.html", content := .str "<html></html>",
                      action := .str "create" },
               some { path := .str "style.css", content := .other,
                      action := .str "update" }]) =
      .ok { results := [("index.html", "ok")], successCount := 1, errorCount := 0 } := by
  exact (commit_files_filters_malformed (fun _ _ => .ok none) (fun _ _ _ _ => .ok ())
    "add dark mode" "feature/x"
    { path := .str "index.html", content := .str "<html></html>", action := .str "create" }
    "index.html" "<html></html>" rfl rfl (by decide)
    (some { path := .str "style.css", content := .other, action := .str "update" })
    (by decide) (fun _ _ => rfl)).1

/-- **C10.** When the `changes` array is non-empty but every entry is
malformed, `commit_files` throws the "All change entries were invalid"
error instead of returning a result object. -/
theorem commit_files_all_invalid_throws
    (getFileSha : String → String → Except String (Option String))
    (putFile : String → String → String → Option String → Except String Unit)
    (description branchName : String)
    (cs : List RawEntry) (hne : cs ≠ [])
    (hall : ∀ e ∈ cs, isValidEntry e = false) :
    commitFilesExec getFileSha putFile description branchName (some cs) =
      .error allInvalidMsg
    ∧ ContainsStr allInvalidMsg "All change entries were invalid" := by
  constructor
  · have hfilter : cs.filter isValidEntry = [] := by
      rw [List.filter_eq_nil_iff]
      intro a ha
      simp [hall a ha]
    have hcsne : cs.isEmpty = false := by
      cases cs with
      | nil => exact absurd rfl hne
      | cons a l => rfl
    simp only [commitFilesExec, hcsne, hfilter]
    rfl
  · have : allInvalidMsg = "" ++ "All change entries were invalid" ++
        (" (missing path or content). " ++
         "Each entry must have: path (string), content (string), action ('create' | 'update').") := by
      simp [allInvalidMsg, String.ext_iff]
    rw [this]
    exact containsStr_of_append _ _ _

/-- Witness for `commit_files_all_invalid_throws`: two malformed entries
(a null entry and one with a blank path). -/
theorem commit_files_all_invalid_throws_witness :
    commitFilesExec (fun _ _ => .ok none) (fun _ _ _ _ => .ok ())
        "desc" "feature/x"
        (some [none, some { path := .str "  ", content := .str "x",
                            action := .str "create" }]) =
      .error allInvalidMsg := by
  exact (commit_files_all_invalid_throws (fun _ _ => .ok none) (fun _ _ _ _ => .ok ())
    "desc" "feature/x"
    [none, some { path := .str "  ", content := .str "x", action := .str "create" }]
    (by decide) (by decide)).1

/-!
## Execution plan state machine (src/server.ts:5-44, 483-500, 504-752)
-/

inductive StepStatus where
  | pending | running | completed | skipped | error
deriving DecidableEq, Repr

structure PlanStep where
  id : String
  label : String
  status : StepStatus
  startedAt : Option Nat := none
  completedAt : Option Nat := none
  error : Option String := none
deriving DecidableEq, Repr

structure ExecutionPlan where
  steps : List PlanStep
  currentStepIndex : Nat
  createdAt : Nat
deriving DecidableEq, Repr

/-- The 7 fixed plan step ids, in execution order (src/server.ts:6-14). -/
def PLAN_STEP_IDS : List String :=
  ["validate_input", "ensure_github", "fetch_repo", "generate_changes",
   "create_branch", "apply_changes", "create_pr"]

/-- `id.replace(/_/g, " ").replace(/\b\w/g, c => c.toUpperCase())`. -/
def labelOf (id : String) : String :=
  String.intercalate " " ((id.splitOn "_").map (fun w =>
    match w.data with
    | [] => ""
    | c :: rest => String.mk (c.toUpper :: rest)))

/-- `createExecutionPlan()` (src/server.ts:16-27); `now` models
`Date.now()`. -/
def createExecutionPlan (now : Nat) : ExecutionPlan :=
  { steps := PLAN_STEP_IDS.map (fun id =>
      { id := id, label := labelOf id, status := .pending }),
    currentStepIndex := 0,
    createdAt := now }

/-- The indexed map over `plan.steps` inside `setStepStatus`
(src/server.ts:35-42), unrolled as a structurally recursive traversal
carrying the element index. -/
def setStepsFrom (stepIndex : Nat) (upd : PlanStep → PlanStep) :
    Nat → List PlanStep → List PlanStep
  | _, [] => []
  | i, s :: rest =>
    (if i ≠ stepIndex then s else upd s) :: setStepsFrom stepIndex upd (i + 1) rest

/-- `setStepStatus(plan, stepIndex, status, error?)` (src/server.ts:29-44);
`now` models `Date.now()`. -/
def setStepStatus (plan : ExecutionPlan) (stepIndex : Nat)
    (status : StepStatus) (error : Option String) (now : Nat) : ExecutionPlan :=
  let upd := fun (s : PlanStep) =>
    let next := { s with status := status, error := error }
    let next := if status = .running then { next with startedAt := some now } else next
    let next := if status = .completed ∨ status = .error ∨ status = .skipped then
        { next with completedAt := some now } else next
    next
  { plan with
    steps := setStepsFrom stepIndex upd 0 plan.steps,
    currentStepIndex := stepIndex }

theorem setStepsFrom_of_gt (stepIndex : Nat) (upd : PlanStep → PlanStep) :
    ∀ (steps : List PlanStep) (i0 : Nat), stepIndex < i0 →
      setStepsFrom stepIndex upd i0 steps = steps := by
  intro steps
  induction steps with
  | nil => intro i0 _; rfl
  | cons s rest ih =>
    intro i0 h
    simp only [setStepsFrom]
    rw [if_pos (by omega), ih (i0 + 1) (by omega)]

/-- The status projection of a `setStepsFrom` update is a `List.set`. -/
theorem setStepsFrom_map_status (stepIndex : Nat) (upd : PlanStep → PlanStep)
    (st : StepStatus) (hupd : ∀ s, (upd s).status = st) :
    ∀ (steps : List PlanStep) (i0 : Nat), i0 ≤ stepIndex →
      (setStepsFrom stepIndex upd i0 steps).map (fun s => s.status) =
        (steps.map (fun s => s.status)).set (stepIndex - i0) st := by
  intro steps
  induction steps with
  | nil => intro i0 _; simp [setStepsFrom]
  | cons s rest ih =>
    intro i0 h
    by_cases heq : i0 = stepIndex
    · subst heq
      simp only [setStepsFrom, if_neg (by omega : ¬ i0 ≠ i0), List.map_cons]
      rw [setStepsFrom_of_gt _ _ rest (i0 + 1) (by omega)]
      rw [Nat.sub_self]
      simp [hupd]
    · have hlt : i0 < stepIndex := by omega
      simp only [setStepsFrom, if_pos (by omega : i0 ≠ stepIndex), List.map_cons]
      rw [ih (i0 + 1) (by omega)]
      have : stepIndex - i0 = (stepIndex - (i0 + 1)) + 1 := by omega
      rw [this]
      rfl

theorem setStepStatus_map_status (plan : ExecutionPlan) (stepIndex : Nat)
    (status : StepStatus) (error : Option String) (now : Nat) :
    (setStepStatus plan stepIndex status error now).steps.map (fun s => s.status) =
      (plan.steps.map (fun s => s.status)).set stepIndex status := by
  unfold setStepStatus
  rw [setStepsFrom_map_status stepIndex _ status ?_ plan.steps 0 (Nat.zero_le _)]
  · rw [Nat.sub_zero]
  · intro s
    dsimp only
    split <;> split <;> rfl

/-- The sequence of `setStepStatus` calls performed by a complete
`createPR` run (src/server.ts:527-723): each step is set `running`, then
`completed`, in index order; these are the only plan mutations in the
source (`setPlanStepError` is never invoked), and an aborted run performs
a prefix of them. -/
def createPRPlanOps : List (Nat × StepStatus) :=
  [(0, .running), (0, .completed), (1, .running), (1, .completed),
   (2, .running), (2, .completed), (3, .running), (3, .completed),
   (4, .running), (4, .completed), (5, .running), (5, .completed),
   (6, .running), (6, .completed)]

/-- Apply a list of plan mutations in order; `times` supplies the
`Date.now()` value of each call. -/
def applyPlanOps (times : Nat → Nat) :
    List (Nat × StepStatus) → ExecutionPlan → ExecutionPlan
  | [], plan => plan
  | op :: rest, plan =>
    applyPlanOps (fun j => times (j + 1)) rest
      (setStepStatus plan op.1 op.2 none (times 0))

/-- The plan state reachable after the first `k` mutations of a `createPR`
run. -/
def createPRPlanAfter (times : Nat → Nat) (k : Nat) : ExecutionPlan :=
  applyPlanOps (fun j => times (j + 1)) (createPRPlanOps.take k)
    (createExecutionPlan (times 0))

theorem applyPlanOps_map_status (ops : List (Nat × StepStatus)) :
    ∀ (times : Nat → Nat) (plan : ExecutionPlan),
      (applyPlanOps times ops plan).steps.map (fun s => s.status) =
        ops.foldl (fun l op => l.set op.1 op.2)
          (plan.steps.map (fun s => s.status)) := by
  induction ops with
  | nil => intro times plan; rfl
  | cons op rest ih =>
    intro times plan
    simp only [applyPlanOps, List.foldl_cons]
    rw [ih, setStepStatus_map_status]

/-- Status list after `k` mutations, as a closed computation. -/
def statusTrace (k : Nat) : List StepStatus :=
  (createPRPlanOps.take k).foldl (fun l op => l.set op.1 op.2)
    (List.replicate 7 .pending)

theorem createPRPlanAfter_statuses (times : Nat → Nat) (k : Nat) :
    (createPRPlanAfter times k).steps.map (fun s => s.status) = statusTrace k := by
  unfold createPRPlanAfter statusTrace
  rw [applyPlanOps_map_status]
  rfl

/-- Rank used to state monotonicity: `pending < running < terminal`. -/
def statusRank : StepStatus → Nat
  | .pending => 0
  | .running => 1
  | _ => 2

/-- **C8.** In every plan state reachable during a `createPR` run the 7
steps advance strictly left-to-right: a step is `running` only when all
prior steps are `completed`; statuses never move back toward `pending`
from one mutation to the next; if a step were `error`, every later step
would still be `pending`; and in fact no reachable state contains an
`error` step at all (the `catch` block of `createPR` never marks a step
`error`). -/
theorem createPR_plan_left_to_right (times : Nat → Nat) (k : Nat)
    (hk : k ≤ 14) :
    (∀ j < 7, ((createPRPlanAfter times k).steps.map (fun s => s.status)).getD j .pending = .running →
      ∀ i < j, ((createPRPlanAfter times k).steps.map (fun s => s.status)).getD i .pending = .completed)
    ∧ (k < 14 → ∀ i < 7,
        statusRank (((createPRPlanAfter times k).steps.map (fun s => s.status)).getD i .pending) ≤
        statusRank (((createPRPlanAfter times (k + 1)).steps.map (fun s => s.status)).getD i .pending))
    ∧ (∀ i < 7, ((createPRPlanAfter times k).steps.map (fun s => s.status)).getD i .pending = .error →
        ∀ j < 7, i < j →
          ((createPRPlanAfter times k).steps.map (fun s => s.status)).getD j .pending = .pending)
    ∧ (∀ i < 7, ((createPRPlanAfter times k).steps.map (fun s => s.status)).getD i .pending ≠ .error) := by
  rw [createPRPlanAfter_statuses]
  refine ⟨?_, ?_, ?_, ?_⟩
  · revert hk
    refine (?_ : k ≤ 14 → _)
    intro hk
    interval_cases k <;> decide
  · intro hk14
    rw [createPRPlanAfter_statuses]
    revert hk14
    refine (?_ : k < 14 → _)
    intro hk14
    interval_cases k <;> decide
  · interval_cases k <;> decide
  · interval_cases k <;> decide

/-- Witness for `createPR_plan_left_to_right` at the state after 5
mutations (step 2 running, steps 0-1 completed). -/
theorem createPR_plan_left_to_right_witness :
    (∀ j < 7, ((createPRPlanAfter (fun _ => 0) 5).steps.map (fun s => s.status)).getD j .pending = .running →
      ∀ i < j, ((createPRPlanAfter (fun _ => 0) 5).steps.map (fun s => s.status)).getD i .pending = .completed)
    ∧ (∀ i < 7, ((createPRPlanAfter (fun _ => 0) 5).steps.map (fun s => s.status)).getD i .pending ≠ .error) := by
  refine ⟨(createPR_plan_left_to_right (fun _ => 0) 5 (by decide)).1, ?_⟩
  exact (createPR_plan_left_to_right (fun _ => 0) 5 (by decide)).2.2.2

/-!
## Agent task state (src/types.ts `AgentState`, src/server.ts:504-516 and
756-780)
-/

inductive AgentStatus where
  | idle | connecting | analyzing | generating | creating_pr | completed | error
deriving DecidableEq, Repr

structure PRRequest where
  repoUrl : String
  description : String
  branchName : Option String := none
  targetBranch : Option String := none
deriving DecidableEq, Repr

structure PRResult where
  success : Bool
  prUrl : Option String := none
  error : Option String := none
  branchName : Option String := none
deriving DecidableEq, Repr

structure FileChange where
  path : String
  content : String
  action : String
deriving DecidableEq, Repr

structure AgentState where
  status : AgentStatus
  githubConnected : Bool
  githubAuthUrl : Option String := none
  githubToken : Option String := none
  githubUsername : Option String := none
  currentRequest : Option PRRequest := none
  generatedChanges : Option (List FileChange) := none
  result : Option PRResult := none
  progressMessages : List String := []
  errorMessage : Option String := none
  plan : Option ExecutionPlan := none
deriving DecidableEq, Repr

/-- The `setState` call at the top of `createPR` (src/server.ts:506-515):
spreads the previous state, resets `progressMessages`/`result`/
`errorMessage`, and installs a fresh execution plan. -/
def createPRInitState (prev : AgentState) (request : PRRequest) (now : Nat) :
    AgentState :=
  { prev with
    status := .analyzing,
    currentRequest := some request,
    progressMessages := [],
    result := none,
    errorMessage := none,
    plan := some (createExecutionPlan now) }

/-- The `setState` call at the top of `createPRReAct`
(src/server.ts:773-780): spreads the previous state and resets
`progressMessages`/`result`/`errorMessage` — the `plan` field is **not**
touched. -/
def createPRReActInitState (prev : AgentState) (request : PRRequest) :
    AgentState :=
  { prev with
    status := .analyzing,
    currentRequest := some request,
    progressMessages := [],
    result := none,
    errorMessage := none }

/-- A previous terminal state carrying a finished plan, a result, and
progress messages, as left behind by a completed `createPR` run. -/
def prevStateExample : AgentState :=
  { status := .completed,
    githubConnected := true,
    currentRequest := some { repoUrl := "octo/repo", description := "old task" },
    result := some { success := true, prUrl := some "https://github.com/octo/repo/pull/1" },
    progressMessages := ["Starting PR creation (7 steps)", "Pull request created successfully!"],
    plan := some (createPRPlanAfter (fun _ => 0) 14) }

/-- **Counterexample to C2 as stated**: invoking `createPRReAct` after a
completed `createPR` run does *not* clear the previous invocation's
`plan` — the stale plan survives in the new task state (while `result` and
`progressMessages` are indeed cleared). -/
theorem createPRReAct_does_not_clear_plan :
    (createPRReActInitState prevStateExample
        { repoUrl := "octo/repo", description := "new task" }).plan =
      some (createPRPlanAfter (fun _ => 0) 14)
    ∧ (createPRReActInitState prevStateExample
        { repoUrl := "octo/repo", description := "new task" }).plan ≠ none := by
  refine ⟨rfl, ?_⟩
  simp [createPRReActInitState, prevStateExample]

/-- **C2 (amended).** Both task entry points reset `result`,
`progressMessages`, and `errorMessage` before any step executes;
`createPR` additionally replaces `plan` with a fresh all-pending
7-step plan, while `createPRReAct` leaves the previous invocation's
`plan` field unchanged. -/
theorem task_invocation_state_reset (prev : AgentState) (request : PRRequest)
    (now : Nat) :
    ((createPRInitState prev request now).result = none
      ∧ (createPRInitState prev request now).progressMessages = []
      ∧ (createPRInitState prev request now).errorMessage = none
      ∧ (createPRInitState prev request now).plan = some (createExecutionPlan now)
      ∧ (createPRInitState prev request now).currentRequest = some request)
    ∧ ((createPRReActInitState prev request).result = none
      ∧ (createPRReActInitState prev request).progressMessages = []
      ∧ (createPRReActInitState prev request).errorMessage = none
      ∧ (createPRReActInitState prev request).plan = prev.plan
      ∧ (createPRReActInitState prev request).currentRequest = some request) := by
  exact ⟨⟨rfl, rfl, rfl, rfl, rfl⟩, ⟨rfl, rfl, rfl, rfl, rfl⟩⟩

/-!
## Change-Set Generator & Validator (src/server.ts:334-481)

`JSON.parse` is modelled as an oracle `String → Option JVal` over a JSON
value type; the per-attempt Workers AI call (70B with 8B fallback) is an
attempt-indexed oracle whose `.error` case models both models throwing.
-/

/-- A parsed JSON value (the `unknown` that `validateChanges` receives). -/
inductive JVal where
  | str (s : String)
  | num (n : Int)
  | boolean (b : Bool)
  | null
  | arr (xs : List JVal)
  | obj (kvs : List (String × JVal))

/-- JS `item === null || typeof item !== "object"` (arrays are objects). -/
def JVal.isObjectLike : JVal → Bool
  | .arr _ => true
  | .obj _ => true
  | _ => false

/-- Property lookup `obj.key`: `none` models `undefined` (also for
non-object values, whose property access in the validator only occurs
after the object check; arrays have no string properties here). -/
def JVal.get? : JVal → String → Option JVal
  | .obj kvs, k => (kvs.find? (fun p => p.1 = k)).map (fun p => p.2)
  | _, _ => none

mutual

/-- `JSON.stringify` (string escaping of inner quotes elided; the result
only feeds the action error message, which no claim inspects further). -/
def JVal.stringify : JVal → String
  | .str s => "\"" ++ s ++ "\""
  | .num n => toString n
  | .boolean b => cond b "true" "false"
  | .null => "null"
  | .arr xs => "[" ++ stringifyArr xs ++ "]"
  | .obj kvs => "\x7b" ++ stringifyObj kvs ++ "\x7d"

def stringifyArr : List JVal → String
  | [] => ""
  | [x] => x.stringify
  | x :: y :: rest => x.stringify ++ "," ++ stringifyArr (y :: rest)

def stringifyObj : List (String × JVal) → String
  | [] => ""
  | [(k, v)] => "\"" ++ k ++ "\":" ++ v.stringify
  | (k, v) :: kv :: rest => "\"" ++ k ++ "\":" ++ v.stringify ++ "," ++ stringifyObj (kv :: rest)

end

/-- `JSON.stringify(obj.action)` where the field may be `undefined`. -/
def stringifyOpt : Option JVal → String
  | none => "undefined"
  | some v => v.stringify

/-- Validation of a single array element (the body of the `for` loop in
`validateChanges`, src/server.ts:344-362). -/
def validateChangeItem (i : Nat) (item : JVal) : Except String FileChange :=
  if item.isObjectLike = false then
    .error ("Item " ++ toString (i + 1) ++ ": must be an object.")
  else
    match item.get? "path" with
    | some (.str p) =>
      if jsTrim p = "" then
        .error ("Item " ++ toString (i + 1) ++ ": \"path\" must be a non-empty string.")
      else
        match item.get? "content" with
        | some (.str ct) =>
          match item.get? "action" with
          | some (.str a) =>
            if a = "create" ∨ a = "update" ∨ a = "delete" then
              .ok { path := p, content := ct, action := a }
            else
              .error ("Item " ++ toString (i + 1) ++
                ": \"action\" must be one of: create, update, delete. Got: " ++
                stringifyOpt (item.get? "action") ++ ".")
          | other =>
            .error ("Item " ++ toString (i + 1) ++
              ": \"action\" must be one of: create, update, delete. Got: " ++
              stringifyOpt other ++ ".")
        | _ => .error ("Item " ++ toString (i + 1) ++ ": \"content\" must be a string.")
    | _ => .error ("Item " ++ toString (i + 1) ++ ": \"path\" must be a non-empty string.")

def validateChangesGo : Nat → List JVal → Except String (List FileChange)
  | _, [] => .ok []
  | i, item :: rest =>
    match validateChangeItem i item with
    | .error e => .error e
    | .ok fc =>
      match validateChangesGo (i + 1) rest with
      | .error e => .error e
      | .ok fcs => .ok (fc :: fcs)

/-- `validateChanges` (src/server.ts:334-367). -/
def validateChanges (data : JVal) : Except String (List FileChange) :=
  match data with
  | .arr items =>
    if items.isEmpty then
      .error "Array must not be empty; include at least one file change."
    else
      validateChangesGo 0 items
  | _ => .error "Output must be a JSON array."

/-- Global replacement of a literal pattern, left to right and
non-overlapping (JS `String.prototype.replace` with a global literal
regex).  The fuel argument (initialised to the string length, an upper
bound on the number of steps) keeps the recursion structural. -/
def replaceAllCharsFuel (pat rep : List Char) : Nat → List Char → List Char
  | _, [] => []
  | 0, s => s
  | fuel + 1, c :: rest =>
    if pat ≠ [] ∧ pat.isPrefixOf (c :: rest) then
      rep ++ replaceAllCharsFuel pat rep fuel ((c :: rest).drop pat.length)
    else
      c :: replaceAllCharsFuel pat rep fuel rest

def replaceAllChars (pat rep : List Char) (s : List Char) : List Char :=
  replaceAllCharsFuel pat rep s.length s

/-- The markdown-fence stripper of src/server.ts:442-445:
`.replace(/```json\n?/g, "").replace(/```\n?/g, "").trim()`. -/
def stripCodeFences (raw : String) : String :=
  jsTrim (String.mk
    (replaceAllChars "```".data []
      (replaceAllChars ("```" ++ "\n").data []
        (replaceAllChars "```json".data []
          (replaceAllChars ("```json" ++ "\n").data [] raw.data)))))

/-- `text.indexOf("[")` / `text.lastIndexOf("]")` extraction
(src/server.ts:447-455): the substring from the first `[` to the last
`]`; `none` when either is missing or the end precedes the start. -/
def extractJsonSubstring (text : List Char) : Option (List Char) :=
  match text.findIdx? (fun c => c = '['), text.reverse.findIdx? (fun c => c = ']') with
  | some s, some rj =>
    let e := text.length - 1 - rj
    if e < s then none else some ((text.drop s).take (e + 1 - s))
  | _, _ => none

/-- Processing of one raw model response (src/server.ts:429-470): strip
fences, locate the JSON array substring, parse, validate. -/
def processResponse (jsonParse : String → Option JVal) (raw : String) :
    Except String (List FileChange) :=
  match extractJsonSubstring (stripCodeFences raw).data with
  | none => .error "No valid JSON array found (response must start with [ and end with ])."
  | some jsonChars =>
    match jsonParse (String.mk jsonChars) with
    | none => .error "Output is not valid JSON. Check quotes, commas, and escaping."
    | some parsed => validateChanges parsed

def maxAttempts : Nat := 3

/-- The corrective-feedback block prepended to a retry prompt
(src/server.ts:384-386). -/
def rejectionBlock (lastErr : String) : String :=
  "\n\nPREVIOUS ATTEMPT WAS REJECTED. Fix the following and output ONLY the corrected JSON array:\n"
  ++ lastErr

/-- The generation prompt (src/server.ts:389-406). -/
def buildPrompt (repoContents description lastErr : String) : String :=
  let retryHint := if lastErr = "" then "" else rejectionBlock lastErr
  "You are a code generation assistant. Output ONLY valid JSON.\n\n" ++
  repoContents ++
  "\n\nUser request: " ++ String.mk (description.data.take 500) ++
  (if description.length > 500 then "..." else "") ++
  "\n\nRULES:\n" ++
  "1. Use exact file paths from the structure above\n" ++
  "2. For HTML files at root, use \"index.html\" not \"assets/index.html\"\n" ++
  "3. Keep changes minimal and focused\n" ++
  "4. For adding content to existing files, include the full updated file\n" ++
  "5. Each object MUST have: \"path\" (string), \"content\" (string), \"action\" (\"create\" | \"update\" | \"delete\")\n" ++
  retryHint ++
  "\n\nOutput JSON array:\n" ++
  "[\x7b\"path\":\"filename\",\"content\":\"file content\",\"action\":\"create|update|delete\"\x7d]\n\n" ++
  "Output ONLY the JSON array. Start with [ end with ]"

/-- One attempt of the generation loop, for the trace. -/
structure GenAttempt where
  prompt : String
  rejected : Option String

/-- The attempt loop of `generateChanges` (src/server.ts:377-476):
`n` attempts remain, `idx` is the next attempt's oracle index, `lastErr`
the previous validation error ("" initially).  A model-call failure (both
models throwing) aborts with "AI generation failed"; a validation failure
records the reason and retries; success returns immediately. -/
def genGo (modelOut : Nat → Except String String) (jsonParse : String → Option JVal)
    (repoContents description : String) :
    Nat → Nat → String → Except String (List FileChange) × List GenAttempt
  | 0, _, lastErr =>
    (.error ("AI output could not be validated after " ++ toString maxAttempts ++
      " attempts. Last error: " ++ lastErr), [])
  | n + 1, idx, lastErr =>
    match modelOut idx with
    | .error e =>
      (.error ("AI generation failed: " ++ e),
       [⟨buildPrompt repoContents description lastErr, none⟩])
    | .ok raw =>
      match processResponse jsonParse raw with
      | .ok changes =>
        (.ok changes, [⟨buildPrompt repoContents description lastErr, none⟩])
      | .error reason =>
        ((genGo modelOut jsonParse repoContents description n (idx + 1) reason).1,
         ⟨buildPrompt repoContents description lastErr, some reason⟩ ::
           (genGo modelOut jsonParse repoContents description n (idx + 1) reason).2)

/-- `generateChanges` (src/server.ts:370-481), returning the result and
the attempt trace. -/
def generateChanges (modelOut : Nat → Except String String)
    (jsonParse : String → Option JVal) (repoContents description : String) :
    Except String (List FileChange) × List GenAttempt :=
  genGo modelOut jsonParse repoContents description maxAttempts 0 ""

theorem containsStr_mono_left (a b pat : String) (h : ContainsStr a pat) :
    ContainsStr (a ++ b) pat := by
  unfold ContainsStr at *
  rw [String.data_append]
  exact h.trans ((a.data.prefix_append b.data).isInfix)

theorem containsStr_mono_right (a b pat : String) (h : ContainsStr b pat) :
    ContainsStr (a ++ b) pat := by
  unfold ContainsStr at *
  rw [String.data_append]
  exact h.trans ((List.suffix_append a.data b.data).isInfix)

theorem containsStr_self (s : String) : ContainsStr s s :=
  List.infix_refl s.data

theorem append_ne_empty_left (a b : String) (ha : a ≠ "") : a ++ b ≠ "" := by
  intro h
  apply ha
  have hd := congrArg String.data h
  rw [String.data_append] at hd
  have : a.data = [] := (List.append_eq_nil.mp hd).1
  exact String.ext this

/-- Every validation error message of `validateChangeItem` is non-empty
(they all start with "Item "). -/
theorem validateChangeItem_error_ne_empty (i : Nat) (item : JVal) (e : String)
    (h : validateChangeItem i item = .error e) : e ≠ "" := by
  unfold validateChangeItem at h
  have hne : ∀ (x : String), ("Item " ++ x) ≠ "" :=
    fun x => append_ne_empty_left "Item " x (by decide)
  repeat' split at h
  all_goals simp only [Except.error.injEq, reduceCtorEq] at h
  all_goals (subst h; apply hne)

theorem validateChangesGo_error_ne_empty :
    ∀ (i : Nat) (items : List JVal) (e : String),
      validateChangesGo i items = .error e → e ≠ "" := by
  intro i items
  induction items generalizing i with
  | nil => intro e h; simp [validateChangesGo] at h
  | cons item rest ih =>
    intro e h
    unfold validateChangesGo at h
    split at h
    · exact validateChangeItem_error_ne_empty i item e (by
        rename_i heq
        rw [heq]
        simpa using h)
    · split at h
      · exact ih (i + 1) e (by
          rename_i heq
          rw [heq]
          simpa using h)
      · simp at h

theorem validateChanges_error_ne_empty (data : JVal) (e : String)
    (h : validateChanges data = .error e) : e ≠ "" := by
  unfold validateChanges at h
  split at h
  · split at h
    · simp only [Except.error.injEq] at h
      subst h; decide
    · exact validateChangesGo_error_ne_empty 0 _ e h
  · simp only [Except.error.injEq] at h
    subst h; decide

/-- Every rejection reason recorded by an attempt is non-empty. -/
theorem processResponse_error_ne_empty (jsonParse : String → Option JVal)
    (raw e : String) (h : processResponse jsonParse raw = .error e) : e ≠ "" := by
  unfold processResponse at h
  split at h
  · simp only [Except.error.injEq] at h
    subst h; decide
  · split at h
    · simp only [Except.error.injEq] at h
      subst h; decide
    · exact validateChanges_error_ne_empty _ e h

/-- A retry prompt built from a non-empty rejection reason contains the
whole corrective block ("PREVIOUS ATTEMPT WAS REJECTED..." followed by the
reason). -/
theorem buildPrompt_contains_rejection (rc d e : String) (he : e ≠ "") :
    ContainsStr (buildPrompt rc d e) (rejectionBlock e) := by
  unfold buildPrompt
  simp only [if_neg he]
  apply containsStr_mono_left
  apply containsStr_mono_left
  apply containsStr_mono_left
  apply containsStr_mono_right
  exact containsStr_self _

/-- The attempt trace of `genGo` has at most `n` entries. -/
theorem genGo_length_le (modelOut : Nat → Except String String)
    (jsonParse : String → Option JVal) (rc d : String) :
    ∀ n idx lastErr,
      (genGo modelOut jsonParse rc d n idx lastErr).2.length ≤ n := by
  intro n
  induction n with
  | zero => intro idx lastErr; simp [genGo]
  | succ n ih =>
    intro idx lastErr
    unfold genGo
    split
    · simp
    · split
      · simp
      · simpa using ih (idx + 1) _

/-- The first attempt of any `genGo` call builds its prompt from the
pending rejection reason `lastErr`. -/
theorem genGo_head_prompt (modelOut : Nat → Except String String)
    (jsonParse : String → Option JVal) (rc d : String)
    (n idx : Nat) (lastErr : String) (a : GenAttempt)
    (h : (genGo modelOut jsonParse rc d (n + 1) idx lastErr).2.head? = some a) :
    a.prompt = buildPrompt rc d lastErr := by
  unfold genGo at h
  cases hmo : modelOut idx with
  | error em =>
    simp only [hmo, List.head?_cons, Option.some.injEq] at h
    subst h; rfl
  | ok raw =>
    cases hpr : processResponse jsonParse raw with
    | ok changes =>
      simp only [hmo, hpr, List.head?_cons, Option.some.injEq] at h
      subst h; rfl
    | error reason =>
      simp only [hmo, hpr, List.head?_cons, Option.some.injEq] at h
      subst h; rfl

/-- Rejected attempts feed the next attempt's prompt: wherever attempt `k`
is rejected with reason `e`, attempt `k + 1`'s prompt contains the
corrective block carrying `e`. -/
theorem genGo_rejection_feedback (modelOut : Nat → Except String String)
    (jsonParse : String → Option JVal) (rc d : String) :
    ∀ n idx lastErr k a a' e,
      (genGo modelOut jsonParse rc d n idx lastErr).2[k]? = some a →
      a.rejected = some e →
      (genGo modelOut jsonParse rc d n idx lastErr).2[k + 1]? = some a' →
      ContainsStr a'.prompt (rejectionBlock e) := by
  intro n
  induction n with
  | zero => intro idx lastErr k a a' e hk _ _; simp [genGo] at hk
  | succ n ih =>
    intro idx lastErr k a a' e hk hrej hk1
    unfold genGo at hk hk1
    cases hmo : modelOut idx with
    | error em =>
      -- model call failed: singleton trace, no index k+1
      simp only [hmo] at hk1
      cases k with
      | zero => simp at hk1
      | succ k => simp at hk1
    | ok raw =>
      cases hpr : processResponse jsonParse raw with
      | ok changes =>
        -- success: singleton trace, no index k+1
        simp only [hmo, hpr] at hk1
        cases k with
        | zero => simp at hk1
        | succ k => simp at hk1
      | error reason =>
        simp only [hmo, hpr] at hk hk1
        cases k with
        | zero =>
          simp only [List.getElem?_cons_zero, Option.some.injEq] at hk
          subst hk
          simp only [Option.some.injEq] at hrej
          subst hrej
          simp only [List.getElem?_cons_succ] at hk1
          have hne := processResponse_error_ne_empty jsonParse raw reason hpr
          cases n with
          | zero => simp [genGo] at hk1
          | succ m =>
            have hhead : (genGo modelOut jsonParse rc d (m + 1) (idx + 1) reason).2.head? =
                some a' := by
              rw [List.head?_eq_getElem?]
              exact hk1
            rw [genGo_head_prompt modelOut jsonParse rc d m (idx + 1) reason a' hhead]
            exact buildPrompt_contains_rejection rc d reason hne
        | succ k =>
          simp only [List.getElem?_cons_succ] at hk hk1
          exact ih (idx + 1) _ k a a' e hk hrej hk1

/-- A validating attempt returns immediately: the loop stops with that
`FileChange` array after a single further trace entry. -/
theorem genGo_immediate_success (modelOut : Nat → Except String String)
    (jsonParse : String → Option JVal) (rc d : String)
    (n idx : Nat) (lastErr raw : String) (changes : List FileChange)
    (hm : modelOut idx = .ok raw)
    (hp : processResponse jsonParse raw = .ok changes) :
    genGo modelOut jsonParse rc d (n + 1) idx lastErr =
      (.ok changes, [⟨buildPrompt rc d lastErr, none⟩]) := by
  unfold genGo
  simp only [hm, hp]

/-- When every attempt in the window is rejected, the loop exhausts its
budget and fails carrying the final rejection reason. -/
theorem genGo_exhaust (modelOut : Nat → Except String String)
    (jsonParse : String → Option JVal) (rc d : String)
    (raws es : Nat → String) :
    ∀ n idx lastErr,
      (∀ j, idx ≤ j → j < idx + n →
        modelOut j = .ok (raws j) ∧
        processResponse jsonParse (raws j) = .error (es j)) →
      (genGo modelOut jsonParse rc d n idx lastErr).1 =
        .error ("AI output could not be validated after " ++ toString maxAttempts ++
          " attempts. Last error: " ++ (if n = 0 then lastErr else es (idx + n - 1))) := by
  intro n
  induction n with
  | zero => intro idx lastErr _; simp [genGo]
  | succ n ih =>
    intro idx lastErr hall
    obtain ⟨hm, hp⟩ := hall idx (Nat.le_refl _) (by omega)
    unfold genGo
    simp only [hm, hp]
    have := ih (idx + 1) (es idx) (fun j h1 h2 => hall j (by omega) (by omega))
    simp only [this]
    cases n with
    | zero => simp
    | succ m =>
      simp only [Nat.succ_ne_zero, if_false]
      have h1 : idx + 1 + (m + 1) - 1 = idx + (m + 1 + 1) - 1 := by omega
      rw [h1]

/-- **C4.** `generateChanges` makes at most 3 attempts; whenever an
attempt is rejected (extraction, parse, or validation failure) the next
attempt's prompt contains "PREVIOUS ATTEMPT WAS REJECTED..." followed by
the recorded reason; the first attempt whose output validates returns that
array immediately; and if all 3 attempts fail, the error carries the last
validation error message. -/
theorem generateChanges_validation_loop (modelOut : Nat → Except String String)
    (jsonParse : String → Option JVal) (rc d : String) :
    (generateChanges modelOut jsonParse rc d).2.length ≤ maxAttempts
    ∧ (∀ k a a' e,
        (generateChanges modelOut jsonParse rc d).2[k]? = some a →
        a.rejected = some e →
        (generateChanges modelOut jsonParse rc d).2[k + 1]? = some a' →
        ContainsStr a'.prompt (rejectionBlock e)
        ∧ ContainsStr (rejectionBlock e) "PREVIOUS ATTEMPT WAS REJECTED"
        ∧ ContainsStr (rejectionBlock e) e)
    ∧ (∀ n idx lastErr raw changes,
        modelOut idx = .ok raw →
        processResponse jsonParse raw = .ok changes →
        genGo modelOut jsonParse rc d (n + 1) idx lastErr =
          (.ok changes, [⟨buildPrompt rc d lastErr, none⟩]))
    ∧ (∀ raws es : Nat → String,
        (∀ j < 3, modelOut j = .ok (raws j) ∧
          processResponse jsonParse (raws j) = .error (es j)) →
        (generateChanges modelOut jsonParse rc d).1 =
          .error ("AI output could not be validated after " ++ toString maxAttempts ++
            " attempts. Last error: " ++ es 2)) := by
  refine ⟨?_, ?_, ?_, ?_⟩
  · exact genGo_length_le modelOut jsonParse rc d maxAttempts 0 ""
  · intro k a a' e hk hrej hk1
    refine ⟨genGo_rejection_feedback modelOut jsonParse rc d maxAttempts 0 "" k a a' e hk hrej hk1, ?_, ?_⟩
    · unfold rejectionBlock
      have : ("\n\nPREVIOUS ATTEMPT WAS REJECTED. Fix the following and output ONLY the corrected JSON array:\n" : String) =
          "\n\n" ++ "PREVIOUS ATTEMPT WAS REJECTED" ++
          ". Fix the following and output ONLY the corrected JSON array:\n" := by
        decide
      rw [this]
      apply containsStr_mono_left
      apply containsStr_mono_left
      apply containsStr_mono_right
      exact containsStr_self _
    · unfold rejectionBlock
      apply containsStr_mono_right
      exact containsStr_self _
  · intro n idx lastErr raw changes hm hp
    exact genGo_immediate_success modelOut jsonParse rc d n idx lastErr raw changes hm hp
  · intro raws es hall
    have := genGo_exhaust modelOut jsonParse rc d raws es maxAttempts 0 ""
      (fun j h1 h2 => hall j (by simp only [maxAttempts] at h2; omega))
    simpa [maxAttempts] using this

/-- Witness scenario for the validation loop: the model returns a response
with no JSON array, then unparseable JSON, then a valid change-set. -/
def wModelOut : Nat → Except String String := fun i =>
  if i = 0 then .ok "garbage" else if i = 1 then .ok "[not json]" else .ok "[ok]"

def wJsonParse : String → Option JVal := fun s =>
  if s = "[ok]" then
    some (.arr [.obj [("path", .str "index.html"), ("content", .str "hi"),
                      ("action", .str "create")]])
  else none

def wNoArrayErr : String :=
  "No valid JSON array found (response must start with [ and end with ])."

/-- Witness for `generateChanges_validation_loop`: on the concrete
invalid/invalid/valid scenario the loop runs 3 attempts, the second
attempt's prompt carries the corrective block for the first rejection, the
third attempt returns the validated array, and an always-failing model
exhausts all attempts with the last error attached. -/
theorem generateChanges_validation_loop_witness :
    (generateChanges wModelOut wJsonParse "repo" "desc").2.length ≤ maxAttempts
    ∧ ContainsStr (buildPrompt "repo" "desc" wNoArrayErr) (rejectionBlock wNoArrayErr)
    ∧ ContainsStr (rejectionBlock wNoArrayErr) "PREVIOUS ATTEMPT WAS REJECTED"
    ∧ (generateChanges wModelOut wJsonParse "repo" "desc").1 =
        .ok [{ path := "index.html", content := "hi", action := "create" }]
    ∧ (generateChanges (fun _ => .ok "garbage") wJsonParse "repo" "desc").1 =
        .error ("AI output could not be validated after " ++ toString maxAttempts ++
          " attempts. Last error: " ++ wNoArrayErr) := by
  have h := generateChanges_validation_loop wModelOut wJsonParse "repo" "desc"
  have h2 := h.2.1 0 ⟨buildPrompt "repo" "desc" "", some wNoArrayErr⟩
    ⟨buildPrompt "repo" "desc" wNoArrayErr, some "Output is not valid JSON. Check quotes, commas, and escaping."⟩
    wNoArrayErr (by rfl) rfl (by rfl)
  have h4 := (generateChanges_validation_loop (fun _ => .ok "garbage") wJsonParse
    "repo" "desc").2.2.2 (fun _ => "garbage") (fun _ => wNoArrayErr)
    (fun j _ => ⟨rfl, by rfl⟩)
  exact ⟨h.1, h2.1, h2.2.1, by rfl, h4⟩

/-!
## Content encoding round-trip (src/server.ts:143 and src/react-agent.ts:160-163)

The write side is `btoa(unescape(encodeURIComponent(content)))`: UTF-8
encode the string, then base64 the bytes.  The read side is
`decodeURIComponent(escape(atob(base64.replace(/\n/g, ""))))`: strip
newlines, base64-decode to bytes, then UTF-8 decode (a `URIError` on
malformed UTF-8 is modelled by `none`).
-/

/-- The UTF-8 bytes of one Unicode scalar value (the byte sequence
`unescape(encodeURIComponent(·))` exposes to `btoa`). -/
def utf8EncodeChar (c : Char) : List Nat :=
  if c.toNat < 0x80 then [c.toNat]
  else if c.toNat < 0x800 then
    [0xC0 + c.toNat / 64, 0x80 + c.toNat % 64]
  else if c.toNat < 0x10000 then
    [0xE0 + c.toNat / 4096, 0x80 + c.toNat / 64 % 64, 0x80 + c.toNat % 64]
  else
    [0xF0 + c.toNat / 262144, 0x80 + c.toNat / 4096 % 64,
     0x80 + c.toNat / 64 % 64, 0x80 + c.toNat % 64]

def utf8Encode (s : String) : List Nat :=
  (s.data.map utf8EncodeChar).flatten

/-- A UTF-8 continuation byte. -/
def isCont (x : Nat) : Bool := decide (0x80 ≤ x ∧ x < 0xC0)

/-- Number of continuation bytes demanded by a lead byte in `[0xC0, 0xF8)`. -/
def contCount (b : Nat) : Nat := if b < 0xE0 then 1 else if b < 0xF0 then 2 else 3

/-- The scalar value encoded by a lead byte and its continuation bytes. -/
def scalarOf (b : Nat) (conts : List Nat) : Nat :=
  conts.foldl (fun acc x => acc * 64 + (x - 0x80))
    (if b < 0xE0 then b - 0xC0 else if b < 0xF0 then b - 0xE0 else b - 0xF0)

/-- UTF-8 decoding (the byte-level content of
`decodeURIComponent(escape(·))`); `none` models a thrown `URIError`.  The
fuel (initialised to the byte count, an upper bound on the number of
decoded scalars) keeps the recursion structural. -/
def utf8DecodeFuel : Nat → List Nat → Option (List Char)
  | _, [] => some []
  | 0, _ => none
  | fuel + 1, b :: bs =>
    if b < 0x80 then
      (utf8DecodeFuel fuel bs).map (fun cs => Char.ofNat b :: cs)
    else if b < 0xC0 then none
    else if b < 0xF8 then
      if (bs.take (contCount b)).length = contCount b ∧
         (bs.take (contCount b)).all isCont then
        (utf8DecodeFuel fuel (bs.drop (contCount b))).map
          (fun cs => Char.ofNat (scalarOf b (bs.take (contCount b))) :: cs)
      else none
    else none

def utf8Decode (bs : List Nat) : Option (List Char) :=
  utf8DecodeFuel bs.length bs

theorem char_toNat_lt (c : Char) : c.toNat < 0x110000 := by
  rcases c.valid with h | h
  · exact Nat.lt_trans h (by decide)
  · exact h.2

theorem utf8DecodeFuel_nil (f : Nat) : utf8DecodeFuel f [] = some [] := by
  cases f <;> rfl

/-- Any fuel at least the byte count decodes identically. -/
theorem utf8DecodeFuel_irrel :
    ∀ (f1 : Nat), ∀ (f2 : Nat) (bs : List Nat), bs.length ≤ f1 → bs.length ≤ f2 →
      utf8DecodeFuel f1 bs = utf8DecodeFuel f2 bs := by
  intro f1
  induction f1 with
  | zero =>
    intro f2 bs h1 _
    have : bs = [] := List.length_eq_zero.mp (by omega)
    subst this
    rw [utf8DecodeFuel_nil, utf8DecodeFuel_nil]
  | succ g ih =>
    intro f2 bs h1 h2
    cases bs with
    | nil => rw [utf8DecodeFuel_nil, utf8DecodeFuel_nil]
    | cons b bs' =>
      cases f2 with
      | zero => simp at h2
      | succ g2 =>
        rw [utf8DecodeFuel, utf8DecodeFuel]
        simp only [List.length_cons] at h1 h2
        by_cases hb1 : b < 0x80
        · rw [if_pos hb1, if_pos hb1,
            ih g2 bs' (by omega) (by omega)]
        · rw [if_neg hb1, if_neg hb1]
          by_cases hb2 : b < 0xC0
          · rw [if_pos hb2, if_pos hb2]
          · rw [if_neg hb2, if_neg hb2]
            by_cases hb3 : b < 0xF8
            · rw [if_pos hb3, if_pos hb3]
              by_cases hc : (bs'.take (contCount b)).length = contCount b ∧
                  (bs'.take (contCount b)).all isCont
              · rw [if_pos hc, if_pos hc,
                  ih g2 (bs'.drop (contCount b))
                    (by simp only [List.length_drop]; omega)
                    (by simp only [List.length_drop]; omega)]
              · rw [if_neg hc, if_neg hc]
            · rw [if_neg hb3, if_neg hb3]

/-- Decoding peels off exactly the bytes of one encoded scalar. -/
theorem utf8Decode_encodeChar (c : Char) (rest : List Nat) :
    utf8Decode (utf8EncodeChar c ++ rest) =
      (utf8Decode rest).map (fun cs => c :: cs) := by
  have hv := char_toNat_lt c
  by_cases h1 : c.toNat < 0x80
  · have he : utf8EncodeChar c = [c.toNat] := by
      unfold utf8EncodeChar
      rw [if_pos h1]
    rw [he]
    show utf8DecodeFuel ([c.toNat] ++ rest).length (c.toNat :: rest) = _
    have hl : ([c.toNat] ++ rest).length = rest.length + 1 := by simp
    rw [hl, utf8DecodeFuel, if_pos h1, Char.ofNat_toNat]
    rfl
  · by_cases h2 : c.toNat < 0x800
    · have he : utf8EncodeChar c = [0xC0 + c.toNat / 64, 0x80 + c.toNat % 64] := by
        unfold utf8EncodeChar
        rw [if_neg h1, if_pos h2]
      rw [he]
      show utf8DecodeFuel _ ((0xC0 + c.toNat / 64) :: (0x80 + c.toNat % 64) :: rest) = _
      have hl : ([0xC0 + c.toNat / 64, 0x80 + c.toNat % 64] ++ rest).length =
          (rest.length + 1) + 1 := by simp
      rw [hl, utf8DecodeFuel, if_neg (by omega), if_neg (by omega), if_pos (by omega)]
      have hk : contCount (0xC0 + c.toNat / 64) = 1 := by
        unfold contCount
        rw [if_pos (by omega)]
      rw [hk]
      have ht : ((0x80 + c.toNat % 64) :: rest).take 1 = [0x80 + c.toNat % 64] := rfl
      have hd : ((0x80 + c.toNat % 64) :: rest).drop 1 = rest := rfl
      rw [ht, hd]
      rw [if_pos ⟨rfl, by simp [isCont]; omega⟩]
      rw [utf8DecodeFuel_irrel (rest.length + 1) rest.length rest (by omega) (by omega)]
      have hval : scalarOf (0xC0 + c.toNat / 64) [0x80 + c.toNat % 64] = c.toNat := by
        unfold scalarOf
        rw [if_pos (by omega)]
        simp only [List.foldl_cons, List.foldl_nil]
        omega
      rw [hval, Char.ofNat_toNat]
      rfl
    · by_cases h3 : c.toNat < 0x10000
      · have he : utf8EncodeChar c =
            [0xE0 + c.toNat / 4096, 0x80 + c.toNat / 64 % 64, 0x80 + c.toNat % 64] := by
          unfold utf8EncodeChar
          rw [if_neg h1, if_neg h2, if_pos h3]
        rw [he]
        show utf8DecodeFuel _
          ((0xE0 + c.toNat / 4096) :: (0x80 + c.toNat / 64 % 64) ::
            (0x80 + c.toNat % 64) :: rest) = _
        have hl : ([0xE0 + c.toNat / 4096, 0x80 + c.toNat / 64 % 64,
            0x80 + c.toNat % 64] ++ rest).length = (rest.length + 2) + 1 := by
          simp
        rw [hl, utf8DecodeFuel, if_neg (by omega), if_neg (by omega), if_pos (by omega)]
        have hk : contCount (0xE0 + c.toNat / 4096) = 2 := by
          unfold contCount
          rw [if_neg (by omega), if_pos (by omega)]
        rw [hk]
        have ht : ((0x80 + c.toNat / 64 % 64) :: (0x80 + c.toNat % 64) :: rest).take 2 =
            [0x80 + c.toNat / 64 % 64, 0x80 + c.toNat % 64] := rfl
        have hd : ((0x80 + c.toNat / 64 % 64) :: (0x80 + c.toNat % 64) :: rest).drop 2 =
            rest := rfl
        rw [ht, hd]
        rw [if_pos ⟨rfl, by simp [isCont]; constructor <;> omega⟩]
        rw [utf8DecodeFuel_irrel (rest.length + 2) rest.length rest (by omega) (by omega)]
        have hval : scalarOf (0xE0 + c.toNat / 4096)
            [0x80 + c.toNat / 64 % 64, 0x80 + c.toNat % 64] = c.toNat := by
          unfold scalarOf
          rw [if_neg (by omega), if_pos (by omega)]
          simp only [List.foldl_cons, List.foldl_nil]
          omega
        rw [hval, Char.ofNat_toNat]
        rfl
      · have he : utf8EncodeChar c =
            [0xF0 + c.toNat / 262144, 0x80 + c.toNat / 4096 % 64,
             0x80 + c.toNat / 64 % 64, 0x80 + c.toNat % 64] := by
          unfold utf8EncodeChar
          rw [if_neg h1, if_neg h2, if_neg h3]
        rw [he]
        show utf8DecodeFuel _
          ((0xF0 + c.toNat / 262144) :: (0x80 + c.toNat / 4096 % 64) ::
            (0x80 + c.toNat / 64 % 64) :: (0x80 + c.toNat % 64) :: rest) = _
        have hl : ([0xF0 + c.toNat / 262144, 0x80 + c.toNat / 4096 % 64,
            0x80 + c.toNat / 64 % 64, 0x80 + c.toNat % 64] ++ rest).length =
            (rest.length + 3) + 1 := by
          simp
        rw [hl, utf8DecodeFuel, if_neg (by omega), if_neg (by omega), if_pos (by omega)]
        have hk : contCount (0xF0 + c.toNat / 262144) = 3 := by
          unfold contCount
          rw [if_neg (by omega), if_neg (by omega)]
        rw [hk]
        have ht : ((0x80 + c.toNat / 4096 % 64) :: (0x80 + c.toNat / 64 % 64) ::
            (0x80 + c.toNat % 64) :: rest).take 3 =
            [0x80 + c.toNat / 4096 % 64, 0x80 + c.toNat / 64 % 64,
             0x80 + c.toNat % 64] := rfl
        have hd : ((0x80 + c.toNat / 4096 % 64) :: (0x80 + c.toNat / 64 % 64) ::
            (0x80 + c.toNat % 64) :: rest).drop 3 = rest := rfl
        rw [ht, hd]
        rw [if_pos ⟨rfl, by simp [isCont]; omega⟩]
        rw [utf8DecodeFuel_irrel (rest.length + 3) rest.length rest (by omega) (by omega)]
        have hval : scalarOf (0xF0 + c.toNat / 262144)
            [0x80 + c.toNat / 4096 % 64, 0x80 + c.toNat / 64 % 64,
             0x80 + c.toNat % 64] = c.toNat := by
          unfold scalarOf
          rw [if_neg (by omega), if_neg (by omega)]
          simp only [List.foldl_cons, List.foldl_nil]
          omega
        rw [hval, Char.ofNat_toNat]
        rfl

theorem utf8Decode_utf8Encode_data (cs : List Char) :
    utf8Decode ((cs.map utf8EncodeChar).flatten) = some cs := by
  induction cs with
  | nil => rfl
  | cons c rest ih =>
    simp only [List.map_cons, List.flatten_cons]
    rw [utf8Decode_encodeChar, ih]
    rfl

/-- Every byte emitted by the UTF-8 encoder fits in one octet. -/
theorem utf8EncodeChar_lt_256 (c : Char) : ∀ b ∈ utf8EncodeChar c, b < 256 := by
  have hv := char_toNat_lt c
  unfold utf8EncodeChar
  by_cases h1 : c.toNat < 0x80
  · simp only [if_pos h1]
    intro b hb
    simp only [List.mem_singleton] at hb
    omega
  · by_cases h2 : c.toNat < 0x800
    · simp only [if_neg h1, if_pos h2]
      intro b hb
      rcases List.mem_cons.mp hb with h | h
      · omega
      · simp only [List.mem_singleton] at h; omega
    · by_cases h3 : c.toNat < 0x10000
      · simp only [if_neg h1, if_neg h2, if_pos h3]
        intro b hb
        rcases List.mem_cons.mp hb with h | hb
        · omega
        rcases List.mem_cons.mp hb with h | h
        · omega
        · simp only [List.mem_singleton] at h; omega
      · simp only [if_neg h1, if_neg h2, if_neg h3]
        intro b hb
        rcases List.mem_cons.mp hb with h | hb
        · omega
        rcases List.mem_cons.mp hb with h | hb
        · omega
        rcases List.mem_cons.mp hb with h | h
        · omega
        · simp only [List.mem_singleton] at h; omega

theorem utf8Encode_lt_256 (s : String) : ∀ b ∈ utf8Encode s, b < 256 := by
  intro b hb
  unfold utf8Encode at hb
  rw [List.mem_flatten] at hb
  obtain ⟨l, hl, hbl⟩ := hb
  rw [List.mem_map] at hl
  obtain ⟨c, _, hc⟩ := hl
  exact utf8EncodeChar_lt_256 c b (hc ▸ hbl)

/-- The base64 alphabet used by `btoa`/`atob`. -/
def b64Alphabet : List Char :=
  "ABCDEFGHIJKLMNOPQRSTUVWXYZabcdefghijklmnopqrstuvwxyz0123456789+/".data

def b64Char (i : Nat) : Char := b64Alphabet.getD i 'A'

def b64Index? (c : Char) : Option Nat := b64Alphabet.findIdx? (fun x => x = c)

/-- `btoa` over a byte list: 3 bytes per 4 output characters, `=`-padded. -/
def b64Encode : List Nat → List Char
  | [] => []
  | [a] => [b64Char (a / 4), b64Char (a % 4 * 16), '=', '=']
  | [a, b] => [b64Char (a / 4), b64Char (a % 4 * 16 + b / 16), b64Char (b % 16 * 4), '=']
  | a :: b :: c :: rest =>
    b64Char (a / 4) :: b64Char (a % 4 * 16 + b / 16) ::
    b64Char (b % 16 * 4 + c / 64) :: b64Char (c % 64) :: b64Encode rest

/-- `atob` over characters: 4 input characters per 3 bytes, honouring the
`=` padding of the final quartet; `none` models a thrown `InvalidCharacterError`. -/
def b64Decode : List Char → Option (List Nat)
  | [] => some []
  | c1 :: c2 :: c3 :: c4 :: rest =>
    (b64Index? c1).bind (fun i1 =>
      (b64Index? c2).bind (fun i2 =>
        if c3 = '=' ∧ c4 = '=' ∧ rest = [] then
          some [i1 * 4 + i2 / 16]
        else if c4 = '=' ∧ rest = [] then
          (b64Index? c3).map (fun i3 => [i1 * 4 + i2 / 16, i2 % 16 * 16 + i3 / 4])
        else
          (b64Index? c3).bind (fun i3 =>
            (b64Index? c4).bind (fun i4 =>
              (b64Decode rest).map (fun tail =>
                (i1 * 4 + i2 / 16) :: (i2 % 16 * 16 + i3 / 4) ::
                (i3 % 4 * 64 + i4) :: tail)))))
  | _ => none

theorem b64Index_b64Char : ∀ i < 64, b64Index? (b64Char i) = some i := by decide

theorem b64Char_ne_eq : ∀ i < 64, b64Char i ≠ '=' := by decide

theorem b64Char_mem (i : Nat) : b64Char i ∈ b64Alphabet := by
  unfold b64Char
  rw [List.getD_eq_getElem?_getD]
  cases h : b64Alphabet[i]? with
  | none => simp; decide
  | some c =>
    simp only [Option.getD_some]
    exact List.getElem?_mem h

/-- Every character emitted by the encoder is from the alphabet or `=`. -/
theorem b64Encode_mem :
    ∀ (n : Nat) (bs : List Nat), bs.length ≤ n →
      ∀ ch ∈ b64Encode bs, ch ∈ b64Alphabet ∨ ch = '=' := by
  intro n
  induction n with
  | zero =>
    intro bs h ch hch
    have : bs = [] := List.length_eq_zero.mp (by omega)
    subst this
    simp [b64Encode] at hch
  | succ n ih =>
    intro bs hlen ch hch
    cases bs with
    | nil => simp [b64Encode] at hch
    | cons a bs1 =>
      cases bs1 with
      | nil =>
        simp only [b64Encode, List.mem_cons, List.not_mem_nil, or_false] at hch
        rcases hch with h | h | h | h
        all_goals first
          | (subst h; exact Or.inl (b64Char_mem _))
          | (subst h; exact Or.inr rfl)
      | cons b bs2 =>
        cases bs2 with
        | nil =>
          simp only [b64Encode, List.mem_cons, List.not_mem_nil, or_false] at hch
          rcases hch with h | h | h | h
          all_goals first
            | (subst h; exact Or.inl (b64Char_mem _))
            | (subst h; exact Or.inr rfl)
        | cons c rest =>
          simp only [b64Encode, List.mem_cons] at hch
          rcases hch with h | h | h | h | h
          · subst h; exact Or.inl (b64Char_mem _)
          · subst h; exact Or.inl (b64Char_mem _)
          · subst h; exact Or.inl (b64Char_mem _)
          · subst h; exact Or.inl (b64Char_mem _)
          · exact ih rest (by simp at hlen; omega) ch h

/-- base64 round-trip on octet lists. -/
theorem b64Decode_b64Encode :
    ∀ (n : Nat) (bs : List Nat), bs.length ≤ n → (∀ b ∈ bs, b < 256) →
      b64Decode (b64Encode bs) = some bs := by
  intro n
  induction n with
  | zero =>
    intro bs h _
    have : bs = [] := List.length_eq_zero.mp (by omega)
    subst this; rfl
  | succ n ih =>
    intro bs hlen hb
    cases bs with
    | nil => rfl
    | cons a bs1 =>
      have ha : a < 256 := hb a (by simp)
      cases bs1 with
      | nil =>
        rw [b64Encode, b64Decode]
        rw [b64Index_b64Char (a / 4) (by omega),
          b64Index_b64Char (a % 4 * 16) (by omega)]
        simp only [Option.some_bind]
        rw [if_pos ⟨by trivial, by trivial, by trivial⟩]
        simp only [Option.some.injEq, List.cons.injEq, and_true]
        omega
      | cons b bs2 =>
        have hbb : b < 256 := hb b (by simp)
        cases bs2 with
        | nil =>
          rw [b64Encode, b64Decode]
          rw [b64Index_b64Char (a / 4) (by omega),
            b64Index_b64Char (a % 4 * 16 + b / 16) (by omega)]
          simp only [Option.some_bind]
          rw [if_neg (by intro hx; exact b64Char_ne_eq (b % 16 * 4) (by omega) hx.1)]
          rw [if_pos ⟨by trivial, by trivial⟩]
          rw [b64Index_b64Char (b % 16 * 4) (by omega)]
          simp only [Option.map_some', Option.some.injEq, List.cons.injEq, and_true]
          constructor <;> omega
        | cons c rest =>
          have hc : c < 256 := hb c (by simp)
          rw [b64Encode, b64Decode]
          rw [b64Index_b64Char (a / 4) (by omega),
            b64Index_b64Char (a % 4 * 16 + b / 16) (by omega)]
          simp only [Option.some_bind]
          rw [if_neg (by intro hx; exact b64Char_ne_eq (b % 16 * 4 + c / 64) (by omega) hx.1)]
          rw [if_neg (by intro hx; exact b64Char_ne_eq (c % 64) (by omega) hx.1)]
          rw [b64Index_b64Char (b % 16 * 4 + c / 64) (by omega)]
          simp only [Option.some_bind]
          rw [b64Index_b64Char (c % 64) (by omega)]
          simp only [Option.some_bind]
          rw [ih rest (by simp at hlen; omega) (fun x hx => hb x (by simp [hx]))]
          simp only [Option.map_some', Option.some.injEq, List.cons.injEq, and_true]
          refine ⟨by omega, by omega, by omega⟩

/-- The write-side encoding of `GitHubAPI.createOrUpdateFile`
(src/server.ts:143): `btoa(unescape(encodeURIComponent(content)))`. -/
def encodeContentB64 (content : String) : String :=
  String.mk (b64Encode (utf8Encode content))

/-- `base64.replace(/\n/g, "")` (src/react-agent.ts:162). -/
def jsStripNewlines (s : String) : String :=
  String.mk (s.data.filter (fun c => c ≠ '\n'))

/-- The read-side decoding of the `read_file` tool
(src/react-agent.ts:160-163):
`decodeURIComponent(escape(atob(content.replace(/\n/g, ""))))`. -/
def readFileDecode (base64 : String) : Option String :=
  (b64Decode (jsStripNewlines base64).data).bind
    (fun bytes => (utf8Decode bytes).map String.mk)

/-- **C9.** The write-side encoding (`btoa(unescape(encodeURIComponent(·)))`)
and the read-side decoding (`decodeURIComponent(escape(atob(·)))`, after
newline stripping) are mutually inverse: reading back a committed
`FileChange` returns exactly the submitted content. -/
theorem content_encoding_roundtrip (content : String) :
    readFileDecode (encodeContentB64 content) = some content := by
  have hmem := b64Encode_mem (utf8Encode content).length (utf8Encode content)
    (Nat.le_refl _)
  have hstrip : (jsStripNewlines (encodeContentB64 content)).data =
      b64Encode (utf8Encode content) := by
    unfold jsStripNewlines encodeContentB64
    show (b64Encode (utf8Encode content)).filter (fun c => c ≠ '\n') =
      b64Encode (utf8Encode content)
    rw [List.filter_eq_self]
    intro ch hch
    rcases hmem ch hch with h | h
    · simp only [decide_eq_true_eq]
      intro hn
      subst hn
      revert h
      decide
    · subst h
      decide
  unfold readFileDecode
  rw [hstrip]
  rw [b64Decode_b64Encode (utf8Encode content).length (utf8Encode content)
    (Nat.le_refl _) (utf8Encode_lt_256 content)]
  simp only [Option.some_bind]
  have h := utf8Decode_utf8Encode_data content.data
  unfold utf8Encode
  rw [h]
  rfl

/-!
## Autonomous control loop (`runReActAgent`, src/react-agent.ts:568-807)

The Workers AI model is an oracle `script : Nat → ModelResponse` indexed
by the number of prior model invocations (each `callModelWithRetry` call
counts as one invocation); a tool call's `arguments` field is represented
by its JSON serialisation, so the loop-detection signature concatenation
is string concatenation; tool execution is an oracle
`ToolCall → Except String ToolOut`.
-/

def MAX_STEPS : Nat := 15

/-- Max consecutive identical tool calls before a nudge is injected. -/
def MAX_REPEATED_CALLS : Nat := 2

inductive Role where
  | system | user | assistant | tool
deriving DecidableEq, Repr

structure Msg where
  role : Role
  content : String
  name : Option String := none
deriving DecidableEq, Repr

structure ToolCall where
  name : String
  arguments : String
deriving DecidableEq, Repr

structure ModelResponse where
  response : String
  tool_calls : List ToolCall
deriving DecidableEq, Repr

/-- A tool execution result: its serialised payload and, for
`create_pull_request`, the truthiness of `output.success`. -/
structure ToolOut where
  json : String
  prSuccess : Bool
deriving DecidableEq, Repr

/-- The loop-detection signature (src/react-agent.ts:697-699):
`toolCalls.map(c => `${c.name}:${JSON.stringify(c.arguments ?? {})}`).join("|")`. -/
def callSignature (tcs : List ToolCall) : String :=
  String.intercalate "|" (tcs.map (fun c => c.name ++ ":" ++ c.arguments))

def toolNames : List String :=
  ["get_repo_structure", "read_file", "create_branch", "commit_files",
   "create_pull_request"]

/-- `JSON.stringify({error: msg})`, the tool-role payload for a failed or
unknown call. -/
def jsonErrorMsg (msg : String) : String :=
  "\x7b\"error\":\"" ++ msg ++ "\"\x7d"

/-- The corrective nudge message injected on loop detection
(src/react-agent.ts:713-722); a user-role message naming the offending
tool. -/
def nudgeContent (toolName : String) : String :=
  "SYSTEM: You are stuck in a loop calling " ++ toolName ++
  (" repeatedly. STOP calling it again. Instead:\n" ++
   "- If you need to modify a file, call read_file to get its content, then call commit_files.\n" ++
   "- If commit_files previously failed, check that \"changes\" is a proper JSON array of objects, each with \"path\", \"content\", and \"action\" keys.\n" ++
   "- If you have already committed files, call create_pull_request.\n" ++
   "- Do NOT call get_repo_structure again — you already have the structure.")

/-- Sequential execution of the requested tool calls
(src/react-agent.ts:728-778): each result (or error) is appended as a
tool-role message; a `create_pull_request` output records
`prOutput.success`. -/
def execToolCalls (exec : ToolCall → Except String ToolOut) :
    List ToolCall → List Msg → Option Bool → List Msg × Option Bool
  | [], msgs, pr => (msgs, pr)
  | c :: rest, msgs, pr =>
    if c.name ∈ toolNames then
      match exec c with
      | .ok out =>
        execToolCalls exec rest (msgs ++ [⟨.tool, out.json, some c.name⟩])
          (if c.name = "create_pull_request" then some out.prSuccess else pr)
      | .error e =>
        execToolCalls exec rest (msgs ++ [⟨.tool, jsonErrorMsg e, some c.name⟩]) pr
    else
      execToolCalls exec rest
        (msgs ++ [⟨.tool,
          jsonErrorMsg ("Unknown tool requested by model: " ++ c.name),
          some c.name⟩]) pr

structure ReActState where
  messages : List Msg
  lastSig : String
  repeatCount : Nat
  prOutput : Option Bool
  modelCalls : Nat
deriving DecidableEq, Repr

/-- One per-iteration action, for stating trace properties. -/
inductive IterAct where
  | noCalls
  | nudged (toolName sig : String)
  | executed (sig : String)
deriving DecidableEq, Repr

/-- The model invocation at the top of an iteration
(src/react-agent.ts:670-685): bump the invocation count and append the
assistant text when non-empty. -/
def afterModel (script : Nat → ModelResponse) (st : ReActState) : ReActState :=
  { st with
    modelCalls := st.modelCalls + 1,
    messages :=
      if (script st.modelCalls).response = "" then st.messages
      else st.messages ++ [⟨.assistant, (script st.modelCalls).response, none⟩] }

/-- The loop-detected branch (src/react-agent.ts:708-726): inject the
user-role nudge, reset the repetition counter and signature. -/
def nudgeState (st1 : ReActState) (toolName : String) : ReActState :=
  { st1 with
    messages := st1.messages ++ [⟨.user, nudgeContent toolName, none⟩],
    repeatCount := 0,
    lastSig := "" }

/-- The tool-executing branch: record the new signature and repetition
count, run the calls, collect messages and any PR outcome. -/
def afterExec (exec : ToolCall → Except String ToolOut) (calls : List ToolCall)
    (st1 : ReActState) (sig : String) (rc : Nat) : ReActState :=
  { st1 with
    repeatCount := rc,
    lastSig := sig,
    messages := (execToolCalls exec calls st1.messages st1.prOutput).1,
    prOutput := (execToolCalls exec calls st1.messages st1.prOutput).2 }

/-- The control loop of `runReActAgent` (src/react-agent.ts:669-785),
returning the final state and the per-iteration action trace. -/
def runReActLoop (script : Nat → ModelResponse)
    (exec : ToolCall → Except String ToolOut) :
    Nat → ReActState → ReActState × List IterAct
  | 0, st => (st, [])
  | fuel + 1, st =>
    match (script st.modelCalls).tool_calls with
    | [] => (afterModel script st, [.noCalls])
    | c0 :: rest =>
      if MAX_REPEATED_CALLS ≤
          (if callSignature (c0 :: rest) = st.lastSig then st.repeatCount + 1 else 0) then
        ((runReActLoop script exec fuel (nudgeState (afterModel script st) c0.name)).1,
         .nudged c0.name (callSignature (c0 :: rest)) ::
           (runReActLoop script exec fuel (nudgeState (afterModel script st) c0.name)).2)
      else
        if (afterExec exec (c0 :: rest) (afterModel script st) (callSignature (c0 :: rest))
              (if callSignature (c0 :: rest) = st.lastSig then st.repeatCount + 1 else 0)).prOutput
            = some true then
          (afterExec exec (c0 :: rest) (afterModel script st) (callSignature (c0 :: rest))
             (if callSignature (c0 :: rest) = st.lastSig then st.repeatCount + 1 else 0),
           [.executed (callSignature (c0 :: rest))])
        else
          ((runReActLoop script exec fuel
              (afterExec exec (c0 :: rest) (afterModel script st) (callSignature (c0 :: rest))
                (if callSignature (c0 :: rest) = st.lastSig then st.repeatCount + 1 else 0))).1,
           .executed (callSignature (c0 :: rest)) ::
             (runReActLoop script exec fuel
               (afterExec exec (c0 :: rest) (afterModel script st) (callSignature (c0 :: rest))
                 (if callSignature (c0 :: rest) = st.lastSig then st.repeatCount + 1 else 0))).2)

theorem modelCalls_afterModel (script : Nat → ModelResponse) (st : ReActState) :
    (afterModel script st).modelCalls = st.modelCalls + 1 := rfl

theorem modelCalls_nudgeState (st : ReActState) (n : String) :
    (nudgeState st n).modelCalls = st.modelCalls := rfl

theorem modelCalls_afterExec (exec : ToolCall → Except String ToolOut)
    (calls : List ToolCall) (st : ReActState) (sig : String) (rc : Nat) :
    (afterExec exec calls st sig rc).modelCalls = st.modelCalls := rfl

/-- Each iteration invokes the model exactly once, so a run bounded by
`fuel` iterations makes at most `fuel` model invocations. -/
theorem runReActLoop_modelCalls_le (script : Nat → ModelResponse)
    (exec : ToolCall → Except String ToolOut) :
    ∀ fuel st,
      (runReActLoop script exec fuel st).1.modelCalls ≤ st.modelCalls + fuel := by
  intro fuel
  induction fuel with
  | zero => intro st; simp [runReActLoop]
  | succ fuel ih =>
    intro st
    unfold runReActLoop
    cases htc : (script st.modelCalls).tool_calls with
    | nil =>
      simp only [modelCalls_afterModel]
      omega
    | cons c0 rest =>
      dsimp only
      by_cases hcond : MAX_REPEATED_CALLS ≤
          (if callSignature (c0 :: rest) = st.lastSig then st.repeatCount + 1 else 0)
      · rw [if_pos hcond]
        have := ih (nudgeState (afterModel script st) c0.name)
        simp only [modelCalls_nudgeState, modelCalls_afterModel] at this
        simp only
        omega
      · rw [if_neg hcond]
        by_cases hpr : (afterExec exec (c0 :: rest) (afterModel script st)
            (callSignature (c0 :: rest))
            (if callSignature (c0 :: rest) = st.lastSig then st.repeatCount + 1 else 0)).prOutput
            = some true
        · rw [if_pos hpr]
          simp only [modelCalls_afterExec, modelCalls_afterModel]
          omega
        · rw [if_neg hpr]
          have := ih (afterExec exec (c0 :: rest) (afterModel script st)
            (callSignature (c0 :: rest))
            (if callSignature (c0 :: rest) = st.lastSig then st.repeatCount + 1 else 0))
          simp only [modelCalls_afterExec, modelCalls_afterModel] at this
          simp only
          omega

/-- If an iteration executed calls with signature `s` matching the
incoming `lastSig`, the incoming repetition count was 0 (otherwise the
nudge branch would have fired). -/
theorem runReActLoop_head_executed (script : Nat → ModelResponse)
    (exec : ToolCall → Except String ToolOut) :
    ∀ fuel st stF s rest',
      runReActLoop script exec fuel st = (stF, .executed s :: rest') →
      s = st.lastSig → st.repeatCount = 0 := by
  intro fuel st stF s rest' h hs
  cases fuel with
  | zero => simp [runReActLoop] at h
  | succ fuel =>
    unfold runReActLoop at h
    cases htc : (script st.modelCalls).tool_calls with
    | nil =>
      simp only [htc] at h
      simp at h
    | cons c0 rest =>
      simp only [htc] at h
      by_cases hcond : MAX_REPEATED_CALLS ≤
          (if callSignature (c0 :: rest) = st.lastSig then st.repeatCount + 1 else 0)
      · rw [if_pos hcond] at h
        simp only [Prod.mk.injEq, List.cons.injEq] at h
        exact absurd h.2.1 (by simp)
      · rw [if_neg hcond] at h
        have hsig : s = callSignature (c0 :: rest) := by
          by_cases hpr : (afterExec exec (c0 :: rest) (afterModel script st)
              (callSignature (c0 :: rest))
              (if callSignature (c0 :: rest) = st.lastSig then st.repeatCount + 1 else 0)).prOutput
              = some true
          · rw [if_pos hpr] at h
            simp only [Prod.mk.injEq, List.cons.injEq] at h
            exact (IterAct.executed.injEq _ _ ▸ h.2.1.symm).symm ▸ rfl
          · rw [if_neg hpr] at h
            simp only [Prod.mk.injEq, List.cons.injEq] at h
            exact (IterAct.executed.injEq _ _ ▸ h.2.1.symm).symm ▸ rfl
        have heq : callSignature (c0 :: rest) = st.lastSig := by rw [← hsig, hs]
        rw [if_pos heq] at hcond
        simp only [MAX_REPEATED_CALLS] at hcond
        omega

/-- An iteration that executed calls either broke out (PR success) or
continued from a state whose `lastSig` is the executed signature and whose
`repeatCount` tracks the consecutive repetition. -/
theorem runReActLoop_executed_step (script : Nat → ModelResponse)
    (exec : ToolCall → Except String ToolOut) :
    ∀ fuel st stF s rest',
      runReActLoop script exec (fuel + 1) st = (stF, .executed s :: rest') →
      rest' = [] ∨
      ∃ st', runReActLoop script exec fuel st' = (stF, rest')
        ∧ st'.lastSig = s
        ∧ st'.repeatCount = (if s = st.lastSig then st.repeatCount + 1 else 0) := by
  intro fuel st stF s rest' h
  unfold runReActLoop at h
  cases htc : (script st.modelCalls).tool_calls with
  | nil =>
    simp only [htc] at h
    simp at h
  | cons c0 rest =>
    simp only [htc] at h
    by_cases hcond : MAX_REPEATED_CALLS ≤
        (if callSignature (c0 :: rest) = st.lastSig then st.repeatCount + 1 else 0)
    · rw [if_pos hcond] at h
      simp only [Prod.mk.injEq, List.cons.injEq] at h
      exact absurd h.2.1 (by simp)
    · rw [if_neg hcond] at h
      by_cases hpr : (afterExec exec (c0 :: rest) (afterModel script st)
          (callSignature (c0 :: rest))
          (if callSignature (c0 :: rest) = st.lastSig then st.repeatCount + 1 else 0)).prOutput
          = some true
      · rw [if_pos hpr] at h
        simp only [Prod.mk.injEq, List.cons.injEq] at h
        exact Or.inl h.2.2.symm
      · rw [if_neg hpr] at h
        simp only [Prod.mk.injEq, List.cons.injEq] at h
        obtain ⟨h1, h2, h3⟩ := h
        have hsig : callSignature (c0 :: rest) = s := by
          have := h2
          simp only [IterAct.executed.injEq] at this
          exact this
        refine Or.inr ⟨afterExec exec (c0 :: rest) (afterModel script st)
          (callSignature (c0 :: rest))
          (if callSignature (c0 :: rest) = st.lastSig then st.repeatCount + 1 else 0),
          ?_, ?_, ?_⟩
        · rw [Prod.ext_iff]
          refine ⟨h1, ?_⟩
          simpa using h3
        · exact hsig
        · rw [hsig]
          rfl

/-- **Loop detection invariant**: no run ever executes the same tool-call
signature on `MAX_REPEATED_CALLS + 1` consecutive iterations. -/
theorem runReActLoop_no_triple (script : Nat → ModelResponse)
    (exec : ToolCall → Except String ToolOut) :
    ∀ fuel st s,
      ¬ ([.executed s, .executed s, .executed s] <:+:
          (runReActLoop script exec fuel st).2) := by
  intro fuel
  induction fuel with
  | zero =>
    intro st s h
    have := h.length_le
    simp [runReActLoop] at this
  | succ fuel ih =>
    intro st s h
    rcases hrun : runReActLoop script exec (fuel + 1) st with ⟨stF, acts⟩
    rw [hrun] at h
    unfold runReActLoop at hrun
    cases htc : (script st.modelCalls).tool_calls with
    | nil =>
      simp only [htc] at hrun
      simp only [Prod.mk.injEq] at hrun
      rw [← hrun.2] at h
      have := h.length_le
      simp at this
    | cons c0 rest =>
      simp only [htc] at hrun
      by_cases hcond : MAX_REPEATED_CALLS ≤
          (if callSignature (c0 :: rest) = st.lastSig then st.repeatCount + 1 else 0)
      · rw [if_pos hcond] at hrun
        simp only [Prod.mk.injEq] at hrun
        rw [← hrun.2] at h
        rcases List.infix_cons_iff.mp h with hpre | hinf
        · obtain ⟨t, ht⟩ := hpre
          simp at ht
        · exact ih (nudgeState (afterModel script st) c0.name) s hinf
      · rw [if_neg hcond] at hrun
        by_cases hpr : (afterExec exec (c0 :: rest) (afterModel script st)
            (callSignature (c0 :: rest))
            (if callSignature (c0 :: rest) = st.lastSig then st.repeatCount + 1 else 0)).prOutput
            = some true
        · rw [if_pos hpr] at hrun
          simp only [Prod.mk.injEq] at hrun
          rw [← hrun.2] at h
          have := h.length_le
          simp at this
        · rw [if_neg hpr] at hrun
          simp only [Prod.mk.injEq] at hrun
          rw [← hrun.2] at h
          rcases List.infix_cons_iff.mp h with hpre | hinf
          · -- the triple starts at this iteration: two more identical
            -- executions would follow, contradicting the repetition counter
            obtain ⟨t, ht⟩ := hpre
            simp only [List.cons_append, List.cons.injEq] at ht
            obtain ⟨hs0, hacts⟩ := ht
            have hsig : s = callSignature (c0 :: rest) := by
              simp only [IterAct.executed.injEq] at hs0
              exact hs0
            -- the continuation run produced [.executed s, .executed s] ++ t
            set st1 := afterExec exec (c0 :: rest) (afterModel script st)
              (callSignature (c0 :: rest))
              (if callSignature (c0 :: rest) = st.lastSig then st.repeatCount + 1 else 0) with hst1
            have hrun1 : runReActLoop script exec fuel st1 =
                (stF, .executed s :: .executed s :: t) := by
              rw [Prod.ext_iff]
              exact ⟨hrun.1, hacts.symm⟩
            have hlast1 : st1.lastSig = s := by rw [hst1, hsig]; rfl
            have hrc1 : st1.repeatCount = 0 :=
              runReActLoop_head_executed script exec fuel st1 stF s
                (.executed s :: t) hrun1 hlast1.symm
            cases fuel with
            | zero => simp [runReActLoop] at hrun1
            | succ fuel' =>
              rcases runReActLoop_executed_step script exec fuel' st1 stF s
                  (.executed s :: t) hrun1 with hnil | ⟨st2, hrun2, hlast2, hrc2⟩
              · simp at hnil
              · have hrc2' : st2.repeatCount = 1 := by
                  rw [hrc2, if_pos hlast1.symm, hrc1]
                have := runReActLoop_head_executed script exec fuel' st2 stF s t
                  hrun2 hlast2.symm
                omega
          · exact ih (afterExec exec (c0 :: rest) (afterModel script st)
              (callSignature (c0 :: rest))
              (if callSignature (c0 :: rest) = st.lastSig then st.repeatCount + 1 else 0))
              s hinf

/-- The loop-detected iteration: the requested calls are not executed;
instead a corrective user-role message naming the offending tool is
appended, the repetition counter and signature are reset, and the loop
continues with the remaining budget. -/
theorem runReActLoop_nudge_step (script : Nat → ModelResponse)
    (exec : ToolCall → Except String ToolOut)
    (fuel : Nat) (st : ReActState) (c0 : ToolCall) (rest : List ToolCall)
    (htc : (script st.modelCalls).tool_calls = c0 :: rest)
    (hsig : callSignature (c0 :: rest) = st.lastSig)
    (hrep : MAX_REPEATED_CALLS ≤ st.repeatCount + 1) :
    runReActLoop script exec (fuel + 1) st =
      ((runReActLoop script exec fuel (nudgeState (afterModel script st) c0.name)).1,
       .nudged c0.name (callSignature (c0 :: rest)) ::
         (runReActLoop script exec fuel (nudgeState (afterModel script st) c0.name)).2)
    ∧ (nudgeState (afterModel script st) c0.name).messages =
        (afterModel script st).messages ++ [⟨.user, nudgeContent c0.name, none⟩]
    ∧ (⟨.user, nudgeContent c0.name, none⟩ : Msg).role = .user
    ∧ (nudgeState (afterModel script st) c0.name).repeatCount = 0
    ∧ (nudgeState (afterModel script st) c0.name).lastSig = ""
    ∧ ContainsStr (nudgeContent c0.name) c0.name := by
  refine ⟨?_, rfl, rfl, rfl, rfl, ?_⟩
  · conv_lhs => rw [runReActLoop]
    rw [htc]
    dsimp only
    rw [if_pos (by rw [if_pos hsig]; exact hrep)]
  · unfold nudgeContent
    apply containsStr_mono_left
    apply containsStr_mono_right
    exact containsStr_self _

/-- **C1.** The autonomous loop's loop detection and bounds: the model is
invoked at most `MAX_STEPS` (15) times per run; no run executes an
identical tool-call signature more than `MAX_REPEATED_CALLS` (2) times on
consecutive iterations; and on the iteration where the repetition count
reaches `MAX_REPEATED_CALLS` the requested calls are not executed —
a corrective user-role message naming the offending tool is appended, the
repetition counter is reset, and the loop continues. -/
theorem runReActAgent_loop_detection (script : Nat → ModelResponse)
    (exec : ToolCall → Except String ToolOut) :
    (∀ st0 : ReActState, st0.modelCalls = 0 →
      (runReActLoop script exec MAX_STEPS st0).1.modelCalls ≤ MAX_STEPS)
    ∧ (∀ fuel st s,
        ¬ (List.replicate (MAX_REPEATED_CALLS + 1) (IterAct.executed s) <:+:
            (runReActLoop script exec fuel st).2))
    ∧ (∀ fuel st c0 rest,
        (script st.modelCalls).tool_calls = c0 :: rest →
        callSignature (c0 :: rest) = st.lastSig →
        MAX_REPEATED_CALLS ≤ st.repeatCount + 1 →
        runReActLoop script exec (fuel + 1) st =
          ((runReActLoop script exec fuel (nudgeState (afterModel script st) c0.name)).1,
           .nudged c0.name (callSignature (c0 :: rest)) ::
             (runReActLoop script exec fuel (nudgeState (afterModel script st) c0.name)).2)
        ∧ (nudgeState (afterModel script st) c0.name).messages =
            (afterModel script st).messages ++ [⟨.user, nudgeContent c0.name, none⟩]
        ∧ (⟨.user, nudgeContent c0.name, none⟩ : Msg).role = .user
        ∧ (nudgeState (afterModel script st) c0.name).repeatCount = 0
        ∧ (nudgeState (afterModel script st) c0.name).lastSig = ""
        ∧ ContainsStr (nudgeContent c0.name) c0.name) := by
  refine ⟨?_, ?_, ?_⟩
  · intro st0 h0
    have := runReActLoop_modelCalls_le script exec MAX_STEPS st0
    omega
  · intro fuel st s
    have : List.replicate (MAX_REPEATED_CALLS + 1) (IterAct.executed s) =
        [.executed s, .executed s, .executed s] := by
      simp [MAX_REPEATED_CALLS, List.replicate]
    rw [this]
    exact runReActLoop_no_triple script exec fuel st s
  · intro fuel st c0 rest htc hsig hrep
    exact runReActLoop_nudge_step script exec fuel st c0 rest htc hsig hrep

/-- Witness scenario for the loop bounds: a model that always requests the
same `get_repo_structure` call, and a tool executor that always succeeds
without opening a PR. -/
def wScript : Nat → ModelResponse :=
  fun _ => { response := "", tool_calls := [⟨"get_repo_structure", "\x7b\x7d"⟩] }

def wExec : ToolCall → Except String ToolOut :=
  fun _ => .ok { json := "\x7b\"structure\":[]\x7d", prSuccess := false }

def wSt0 : ReActState :=
  { messages := [], lastSig := "", repeatCount := 0, prOutput := none, modelCalls := 0 }

/-- The state facing the third consecutive identical request: the
signature matches and the repetition counter is already 1. -/
def wStuckSt : ReActState :=
  { messages := [], lastSig := callSignature [⟨"get_repo_structure", "\x7b\x7d"⟩],
    repeatCount := 1, prOutput := none, modelCalls := 2 }

/-- Witness for `runReActAgent_loop_detection` on the constant-repetition
scenario. -/
theorem runReActAgent_loop_detection_witness :
    (runReActLoop wScript wExec MAX_STEPS wSt0).1.modelCalls ≤ MAX_STEPS
    ∧ ¬ (List.replicate (MAX_REPEATED_CALLS + 1)
          (IterAct.executed (callSignature [⟨"get_repo_structure", "\x7b\x7d"⟩])) <:+:
          (runReActLoop wScript wExec MAX_STEPS wSt0).2)
    ∧ (runReActLoop wScript wExec 3 wStuckSt =
        ((runReActLoop wScript wExec 2 (nudgeState (afterModel wScript wStuckSt) "get_repo_structure")).1,
         .nudged "get_repo_structure" (callSignature [⟨"get_repo_structure", "\x7b\x7d"⟩]) ::
           (runReActLoop wScript wExec 2 (nudgeState (afterModel wScript wStuckSt) "get_repo_structure")).2)
       ∧ (nudgeState (afterModel wScript wStuckSt) "get_repo_structure").repeatCount = 0
       ∧ ContainsStr (nudgeContent "get_repo_structure") "get_repo_structure") := by
  have h := runReActAgent_loop_detection wScript wExec
  refine ⟨h.1 wSt0 rfl, h.2.1 MAX_STEPS wSt0 _, ?_⟩
  have h3 := h.2.2 2 wStuckSt ⟨"get_repo_structure", "\x7b\x7d"⟩ []
    rfl rfl (by decide)
  exact ⟨h3.1, h3.2.2.2.1, h3.2.2.2.2.2⟩

end PRAgent
